import Mathlib

/-!
Shallow embedding of the DMA descriptor-ring core of drivers/net/macb.c
(Cadence MACB/GEM Ethernet driver): the TX submit path `_macb_send`, the
deferred RX reclaim `reclaim_rx_buffer` / `reclaim_rx_buffers`, the RX
poll/reassembly loop `_macb_recv`, and the GEM multi-queue initialisation
`gmac_init_multi_queues`.  Machine words are modelled as `Nat` with explicit
masking to 32 bits where the C code operates on `u32`.  Hardware is modelled
as an oracle where the code polls it.  Cache flush/invalidate calls are
recorded as events where a claim depends on them and dropped otherwise
(they have no data effect in a sequentially consistent model).
-/

namespace Macb

/-- One 8-byte ring slot, `struct macb_dma_desc { u32 addr; u32 ctrl; }`.
In 64-bit-addressing mode a logical descriptor occupies two consecutive
slots: the second slot's `addr` field is the `addrh` high word. -/
structure Desc where
  addr : Nat
  ctrl : Nat
deriving DecidableEq

/-- Constant from macb.c line 59. -/
def MACB_RX_BUFFER_SIZE : Nat := 128

/-- Constant from macb.c line 63. -/
def MACB_RX_RING_SIZE : Nat := 32

/-- Constant from macb.c line 64. -/
def MACB_TX_RING_SIZE : Nat := 16

/-- Constant from macb.c line 66. -/
def MACB_TX_TIMEOUT : Nat := 1000

/-- Size in bytes of a logical DMA descriptor as used for ring sizing
(macb.c line 98, `DMA_DESC_SIZE`). -/
def DMA_DESC_SIZE : Nat := 16

/-- Byte size of the RX descriptor ring, `MACB_RX_DMA_DESC_SIZE`
(macb.c lines 99 and 101). -/
def MACB_RX_DMA_DESC_SIZE : Nat := MACB_RX_RING_SIZE * DMA_DESC_SIZE

/-- Mask for the 12-bit RX frame-length field (macb.c line 107). -/
def RXBUF_FRMLEN_MASK : Nat := 0xfff

/-- Mask for the 11-bit TX frame-length field (macb.c line 108). -/
def TXBUF_FRMLEN_MASK : Nat := 0x7ff

/-- Modelled from the spec: bit offset of the RX ownership flag in the
descriptor address word.  The numeric offsets below come from the driver's
macb.h header, which is not under src/; the claims depend only on these
flags being distinct single bits of the address/control words. -/
def MACB_RX_USED_OFFSET : Nat := 0

/-- Modelled from the spec: RX wrap-marker bit offset in the address word
(from macb.h, not under src/). -/
def MACB_RX_WRAP_OFFSET : Nat := 1

/-- Modelled from the spec: RX start-of-frame bit offset in the control word
(from macb.h, not under src/). -/
def MACB_RX_SOF_OFFSET : Nat := 14

/-- Modelled from the spec: RX end-of-frame bit offset in the control word
(from macb.h, not under src/). -/
def MACB_RX_EOF_OFFSET : Nat := 15

/-- Modelled from the spec: TX last-buffer bit offset in the control word
(from macb.h, not under src/). -/
def MACB_TX_LAST_OFFSET : Nat := 15

/-- Modelled from the spec: TX buffers-exhausted error bit offset
(from macb.h, not under src/). -/
def MACB_TX_BUF_EXHAUSTED_OFFSET : Nat := 27

/-- Modelled from the spec: TX underrun error bit offset
(from macb.h, not under src/). -/
def MACB_TX_UNDERRUN_OFFSET : Nat := 28

/-- Modelled from the spec: TX wrap-marker bit offset in the control word
(from macb.h, not under src/). -/
def MACB_TX_WRAP_OFFSET : Nat := 30

/-- Modelled from the spec: TX ownership bit offset in the control word
(from macb.h, not under src/). -/
def MACB_TX_USED_OFFSET : Nat := 31

/-- The macb.h `MACB_BIT` macro: a single bit at the given offset. -/
def MACB_BIT (off : Nat) : Nat := 1 <<< off

/-- Pointwise update of a ring of descriptors at one slot index. -/
def updDesc (ring : Nat → Desc) (j : Nat) (d : Desc) : Nat → Desc :=
  fun j' => if j' = j then d else ring j'

/-- Pointwise update of a Nat-valued register/array map. -/
def updf (f : Nat → Nat) (j v : Nat) : Nat → Nat :=
  fun j' => if j' = j then v else f j'

/-- The `lower_32_bits` macro. -/
def lower_32_bits (a : Nat) : Nat := a &&& 0xffffffff

/-- The `upper_32_bits` macro. -/
def upper_32_bits (a : Nat) : Nat := a >>> 32

/-- macb_set_addr (macb.c lines 362-372): writes the low 32 address bits
into the slot's `addr` word and, in 64-bit mode, the high 32 bits into the
`addrh` word, which occupies the `addr` field of the following slot. -/
def macb_set_addr (cfg64 : Bool) (ring : Nat → Desc) (idx addr : Nat) : Nat → Desc :=
  let r1 := if cfg64 then updDesc ring (idx + 1) { ring (idx + 1) with addr := upper_32_bits addr }
            else ring
  updDesc r1 idx { r1 idx with addr := lower_32_bits addr }

/-! ## TX path -/

/-- Software-visible TX ring state: the ring slots and the producer index
`tx_head` of `struct macb_device`. -/
structure TxState where
  tx_ring : Nat → Desc
  tx_head : Nat

/-- The messages `_macb_send` prints: underrun and buffer-exhausted
warnings on completion, or the TX-timeout message. -/
inductive TxReport where
  | underrun
  | bufExhausted
  | timeout
deriving DecidableEq

/-- Everything `_macb_send` leaves behind: its return value, the ring and
producer index, whether the DMA mapping is still held at return
(`dma_map_single` sets it, `dma_unmap_single` releases it), and the
warnings or errors it reported. -/
structure SendResult where
  ret : Int
  tx_ring : Nat → Desc
  tx_head : Nat
  mapped : Bool
  reports : List TxReport

/-- The completion-poll loop of `_macb_send` (macb.c lines 406-413): one
descriptor read per iteration `i = 0 .. MACB_TX_TIMEOUT`, breaking at the
first read with the TX ownership bit set.  The oracle `hw i` is the control
word the hardware lets iteration `i` observe. -/
def pollTxUsed (hw : Nat → Nat) : Option Nat :=
  (List.range (MACB_TX_TIMEOUT + 1)).find? fun i => (hw i).testBit MACB_TX_USED_OFFSET

/-- The `_macb_send` function (macb.c lines 374-428).  `paddr` is the DMA
address returned by `dma_map_single`; `hw` is the hardware oracle observed
by the completion poll.  The C code maps the buffer on entry and unmaps it
unconditionally before its single `return 0`. -/
def _macb_send (cfg64 : Bool) (s : TxState) (paddr length : Nat) (hw : Nat → Nat) :
    SendResult :=
  let tx_head := s.tx_head
  let ctrl0 := (length &&& TXBUF_FRMLEN_MASK) ||| MACB_BIT MACB_TX_LAST_OFFSET
  let wrapHere := tx_head = MACB_TX_RING_SIZE - 1
  let ctrl1 := if wrapHere then ctrl0 ||| MACB_BIT MACB_TX_WRAP_OFFSET else ctrl0
  let new_head := if wrapHere then 0 else tx_head + 1
  let idx := if cfg64 then tx_head * 2 else tx_head
  let ring1 := updDesc s.tx_ring idx { s.tx_ring idx with ctrl := ctrl1 }
  let ring2 := macb_set_addr cfg64 ring1 idx paddr
  let ctrlFinal := match pollTxUsed hw with
    | some i => hw i
    | none => hw MACB_TX_TIMEOUT
  let reports := match pollTxUsed hw with
    | some _ =>
        (if ctrlFinal.testBit MACB_TX_UNDERRUN_OFFSET then [TxReport.underrun] else []) ++
        (if ctrlFinal.testBit MACB_TX_BUF_EXHAUSTED_OFFSET then [TxReport.bufExhausted] else [])
    | none => [TxReport.timeout]
  { ret := 0, tx_ring := ring2, tx_head := new_head, mapped := false, reports := reports }

/-! ## RX reclaim -/

/-- Descriptors per CPU cache line, `DESC_PER_CACHELINE_32` and
`DESC_PER_CACHELINE_64` (macb.c lines 104-105): the cache line size divided
by 8 (`sizeof(struct macb_dma_desc)`) in 32-bit mode, or by 16
(`DMA_DESC_SIZE`, a logical descriptor being two slots) in 64-bit mode. -/
def descPerCacheline (cfg64 : Bool) (minalign : Nat) : Nat :=
  if cfg64 then minalign / DMA_DESC_SIZE else minalign / 8

/-- The per-line index mask used by `reclaim_rx_buffer`
(macb.c lines 447-453). -/
def lineMask (cfg64 : Bool) (minalign : Nat) : Nat :=
  descPerCacheline cfg64 minalign - 1

/-- The slot shift used by `reclaim_rx_buffer`: logical index `i` lives at
ring slot `i << shift`. -/
def lineShift (cfg64 : Bool) : Nat := if cfg64 then 1 else 0

/-- The `addr &= ~MACB_BIT(RX_USED)` update of `reclaim_rx_buffer`
(macb.c line 460): all other address bits, including the wrap marker, are
kept. -/
def clearRxUsed (d : Desc) : Desc :=
  { d with addr := d.addr &&& (0xffffffff ^^^ MACB_BIT MACB_RX_USED_OFFSET) }

/-- Counting loop `while (fuel) { visit i; i := i + 1 }`: the list
`[i, i+1, ..., i+n-1]`. -/
def whileLTAux : Nat → Nat → List Nat
  | 0, _ => []
  | n + 1, i => i :: whileLTAux n (i + 1)

/-- The visits of the first loop of `reclaim_rx_buffers`
(macb.c lines 471-476): `while (i > new_tail) { reclaim(i); i++; if (i >=
MACB_RX_RING_SIZE) i = 0; }`.  Since `i` only grows, when it starts above
`new_tail` the loop can only exit through the wrap reset to 0 (for `Nat`,
`0 > new_tail` is false), so it visits `i .. MACB_RX_RING_SIZE - 1`. -/
def reclaimVisitsAbove (i new_tail : Nat) : List Nat :=
  if new_tail < i then whileLTAux (MACB_RX_RING_SIZE - i) i else []

/-- The index the first loop of `reclaim_rx_buffers` leaves behind: 0 after
a wrap, the unchanged start index otherwise. -/
def reclaimAboveFinal (i new_tail : Nat) : Nat :=
  if new_tail < i then 0 else i

/-- All logical descriptor indices visited by the two reclaim loops of
`reclaim_rx_buffers` (macb.c lines 471-481), in visit order. -/
def reclaimVisits (rx_tail new_tail : Nat) : List Nat :=
  reclaimVisitsAbove rx_tail new_tail ++
    whileLTAux (new_tail - reclaimAboveFinal rx_tail new_tail)
      (reclaimAboveFinal rx_tail new_tail)

/-- The `reclaim_rx_buffer` function (macb.c lines 430-461): does nothing
unless `idx` is the last logical descriptor index of its cache line; in that
case it clears the RX ownership bit of every descriptor of that line.
Returns the updated ring together with the list of logical indices whose
ownership bit the call cleared. -/
def reclaim_rx_buffer (cfg64 : Bool) (minalign : Nat) (ring : Nat → Desc) (idx : Nat) :
    (Nat → Desc) × List Nat :=
  let mask := lineMask cfg64 minalign
  let shift := lineShift cfg64
  if idx &&& mask ≠ mask then (ring, [])
  else
    let start := idx &&& (0xffffffff ^^^ mask)
    let idxs := whileLTAux (idx + 1 - start) start
    (idxs.foldl (fun r i => updDesc r (i <<< shift) (clearRxUsed (r (i <<< shift)))) ring,
     idxs)

/-- Software-visible RX state of `struct macb_device`: the descriptor ring,
the reclaim tail `rx_tail`, the scan cursor `next_rx_tail` and the
`wrapped` flag. -/
structure RxState where
  rx_ring : Nat → Desc
  rx_tail : Nat
  next_rx_tail : Nat
  wrapped : Bool

/-- Result of `reclaim_rx_buffers`: the new state, the logical indices whose
ownership bit was cleared (in order), and the dcache flush ranges issued,
as (start, length) byte ranges over the RX descriptor ring. -/
structure ReclaimResult where
  state : RxState
  cleared : List Nat
  flushes : List (Nat × Nat)

/-- One iteration of the reclaim loops of `reclaim_rx_buffers`: apply
`reclaim_rx_buffer` to the ring and append the cleared indices of the call
to the event log. -/
def reclaimStep (cfg64 : Bool) (minalign : Nat) (acc : (Nat → Desc) × List Nat) (i : Nat) :
    (Nat → Desc) × List Nat :=
  let r := reclaim_rx_buffer cfg64 minalign acc.1 i
  (r.1, acc.2 ++ r.2)

/-- The `reclaim_rx_buffers` function (macb.c lines 463-486): walks the
logical indices from `rx_tail` up to (not including) `new_tail`, wrapping
at the ring size, calling `reclaim_rx_buffer` on each; then flushes the
whole descriptor-ring range once (`macb_flush_ring_desc`, line 484) and
sets `rx_tail = new_tail`. -/
def reclaim_rx_buffers (cfg64 : Bool) (minalign : Nat) (s : RxState) (new_tail : Nat) :
    ReclaimResult :=
  let visits := reclaimVisits s.rx_tail new_tail
  let folded := visits.foldl (reclaimStep cfg64 minalign) (s.rx_ring, [])
  { state := { s with rx_ring := folded.1, rx_tail := new_tail },
    cleared := folded.2,
    flushes := [(0, MACB_RX_DMA_DESC_SIZE)] }

/-! ## RX receive -/

/-- Result of `_macb_recv`: the return value (`-EAGAIN = -11` or the frame
length), the bytes reachable through `*packetp`, the final driver state,
and ghost observations fixed at the return point: the raw ring slot whose
ownership bit was tested last (`examined`), the value of that test
(`usedAtExamined`), and, for a frame return, `rx_tail` and the `wrapped`
flag at the moment the end-of-frame descriptor was processed. -/
structure RecvResult where
  ret : Int
  packet : Nat → Nat
  state : RxState
  examined : Nat
  usedAtExamined : Bool
  tailAtEOF : Nat
  wrappedAtEOF : Bool

/-- The scan loop of `_macb_recv` (macb.c lines 497-561).  `pool` is the RX
buffer pool (byte-addressed), `scratch0` the previous contents of the
bounce buffer `net_rx_packets[0]`, `bs` the per-slot buffer size
`rx_buffer_size`.  `next` is the loop variable `next_rx_tail` (logical at
iteration entry; the 64-bit variant doubles it to address ring slots, and
the `flag` juggling undoes the doubling exactly as in the source).  `fuel`
bounds the iteration count: the C loop has no bound of its own, so `none`
models a scan still running after `fuel` descriptors. -/
def recvLoop (cfg64 : Bool) (minalign : Nat) (pool scratch0 : Nat → Nat) (bs : Nat) :
    Nat → RxState → Nat → Bool → Option RecvResult
  | 0, _, _, _ => none
  | fuel + 1, s, next, flag =>
    let nrt := if cfg64 then next * 2 else next
    let used := (s.rx_ring nrt).addr.testBit MACB_RX_USED_OFFSET
    if used then
      let status := (s.rx_ring nrt).ctrl
      let sofStep : RxState × Nat × Bool :=
        if status.testBit MACB_RX_SOF_OFFSET then
          let nf : Nat × Bool := if cfg64 then (nrt / 2, true) else (nrt, flag)
          let s1 := if nf.1 ≠ s.rx_tail
                    then (reclaim_rx_buffers cfg64 minalign s nf.1).state else s
          ({ s1 with wrapped := false }, nf.1, nf.2)
        else (s, nrt, flag)
      let s1 := sofStep.1
      let nrt1 := sofStep.2.1
      let flag1 := sofStep.2.2
      if status.testBit MACB_RX_EOF_OFFSET then
        let off := bs * s1.rx_tail
        let length := status &&& RXBUF_FRMLEN_MASK
        let packet : Nat → Nat :=
          if s1.wrapped then
            let headlen := bs * (MACB_RX_RING_SIZE - s1.rx_tail)
            let taillen := length - headlen
            fun i => if i < headlen then pool (off + i)
                     else if i < headlen + taillen then pool (i - headlen)
                     else scratch0 i
          else
            fun i => pool (off + i)
        let nrt2 := if cfg64 && !flag1 then nrt1 / 2 else nrt1
        let nfinal := if MACB_RX_RING_SIZE ≤ nrt2 + 1 then 0 else nrt2 + 1
        some { ret := Int.ofNat length, packet := packet,
               state := { s1 with next_rx_tail := nfinal },
               examined := nrt, usedAtExamined := used,
               tailAtEOF := s1.rx_tail, wrappedAtEOF := s1.wrapped }
      else
        let nrt2 := if cfg64 && !flag1 then nrt1 / 2 else nrt1
        let flag2 := if cfg64 then false else flag1
        let cont : RxState × Nat :=
          if MACB_RX_RING_SIZE ≤ nrt2 + 1 then ({ s1 with wrapped := true }, 0)
          else (s1, nrt2 + 1)
        recvLoop cfg64 minalign pool scratch0 bs fuel cont.1 cont.2 flag2
    else
      some { ret := -11, packet := scratch0, state := s, examined := nrt,
             usedAtExamined := used, tailAtEOF := 0, wrappedAtEOF := false }

/-- The `_macb_recv` function (macb.c lines 488-562): clears the `wrapped`
flag and runs the scan loop from the stored cursor with `flag = false`. -/
def _macb_recv (cfg64 : Bool) (minalign : Nat) (pool scratch0 : Nat → Nat) (bs fuel : Nat)
    (s : RxState) : Option RecvResult :=
  recvLoop cfg64 minalign pool scratch0 bs fuel
    { s with wrapped := false } s.next_rx_tail false

/-- Modelled from the spec: the bytes of the original received frame, laid
out by hardware in consecutive buffer-pool slots starting at the slot of
the reclaim tail and continuing at the start of the pool past its end.
This is the spec-side comparison target for the reassembly claim; it is
not a function of the driver source. -/
def originalFrameByte (pool : Nat → Nat) (bs tail i : Nat) : Nat :=
  pool ((bs * tail + i) % (bs * MACB_RX_RING_SIZE))

/-! ## GEM multi-queue initialisation -/

/-- Modelled from the spec: the queue count of the controller, from macb.h
(not under src/).  The capability mask is 16 bits wide (macb.c line 985)
and the segment-allocation comment (lines 1017-1018) places queues 0-7 in
the lower register and 8-15 in the upper. -/
def MACB_MAX_QUEUES : Nat := 16

/-- Modelled from the spec: queues per segment-allocation register, from
macb.h (not under src/); the comment at macb.c lines 1017-1018 gives
lower = queues 0-7, upper = queues 8-15. -/
def MACB_LOWER_SEGMENTS_NUM : Nat := 8

/-- The GEM registers written by `gmac_init_multi_queues`, with the
per-queue base-address registers as maps indexed by `queue - 1` exactly as
`gem_writel_queue_TBQP(macb, v, i - 1)` addresses them. -/
structure GemRegs where
  tbqp : Nat → Nat
  rbqp : Nat → Nat
  tbqph : Nat → Nat
  rbqph : Nat → Nat
  seg_alloc_lower : Nat
  seg_alloc_upper : Nat

/-- The fields of `struct macb_config` that `gmac_init_multi_queues`
reads. -/
structure QueueConfig where
  queue_mask : Nat
  disable_queues_at_init : Bool
  allocate_segments_equally : Bool
  hw_dma_cap_64 : Bool

/-- Fuel-structured floor of the base-2 logarithm: the Linux `ilog2` used
at macb.c line 1002.  The fuel argument only makes the recursion
structural; `ilog2` agrees with `Nat.log2` (theorem `ilog2_eq_log2`). -/
def ilog2Aux : Nat → Nat → Nat
  | 0, _ => 0
  | fuel + 1, n => if 2 ≤ n then ilog2Aux fuel (n / 2) + 1 else 0

/-- Floor of the base-2 logarithm, executable by evaluation. -/
def ilog2 (n : Nat) : Nat := ilog2Aux n n

/-- The active-queue bitmask computed at macb.c lines 984-989: the DCFG6
capability mask, intersected with the configuration mask when the latter
is non-zero, with bit 0 (queue 0) forced on. -/
def activeQueueMask (cfgMask dcfg6 : Nat) : Nat :=
  let qm0 := dcfg6 &&& 0xffff
  let qm1 := if cfgMask ≠ 0 then qm0 &&& cfgMask else qm0
  qm1 ||| 1

/-- The queue count computed at macb.c lines 991-993: one plus the number
of set optional-queue bits. -/
def numActiveQueues (qm : Nat) : Nat :=
  1 + (whileLTAux (MACB_MAX_QUEUES - 1) 1).countP fun i => qm.testBit i

/-- One iteration of the disable loop at macb.c lines 976-982: write the
disable value 1 into the TX and RX base-address registers of queue `i`. -/
def gmacDisableStep (g : GemRegs) (i : Nat) : GemRegs :=
  { g with tbqp := updf g.tbqp (i - 1) 1, rbqp := updf g.rbqp (i - 1) 1 }

/-- One iteration of the main loop at macb.c lines 1004-1025: skip queues
not in the mask; otherwise point the queue's base-address registers at the
dummy descriptor and accumulate the segment-allocation nibble for the
queue into the lower or upper allocation word. -/
def gmacQueueStep (cfg : QueueConfig) (qm dummy_paddr spq : Nat)
    (acc : GemRegs × Nat × Nat) (i : Nat) : GemRegs × Nat × Nat :=
  if qm.testBit i then
    let g1 := acc.1
    let g2 := { g1 with
                tbqp := updf g1.tbqp (i - 1) (lower_32_bits dummy_paddr),
                rbqp := updf g1.rbqp (i - 1) (lower_32_bits dummy_paddr) }
    let g3 := if cfg.hw_dma_cap_64 then
                { g2 with
                  tbqph := updf g2.tbqph (i - 1) (upper_32_bits dummy_paddr),
                  rbqph := updf g2.rbqph (i - 1) (upper_32_bits dummy_paddr) }
              else g2
    if i < MACB_LOWER_SEGMENTS_NUM then
      (g3, acc.2.1 ||| (spq <<< (i * 4)), acc.2.2)
    else
      (g3, acc.2.1, acc.2.2 ||| (spq <<< ((i - MACB_LOWER_SEGMENTS_NUM) * 4)))
  else acc

/-- The `gmac_init_multi_queues` function (macb.c lines 969-1033).
`dcfg6` is the capability register value, `dummy_paddr` the DMA address of
the dummy descriptor, `segTotal` the `MACB_SEGMENTS_NUM` constant from
macb.h (not under src/, kept as a parameter).  Returns the written
registers and the dummy descriptor contents. -/
def gmac_init_multi_queues (cfg : QueueConfig) (dcfg6 dummy_paddr segTotal : Nat)
    (regs0 : GemRegs) : GemRegs × Desc :=
  let regs1 :=
    if cfg.disable_queues_at_init then
      (whileLTAux (MACB_MAX_QUEUES - 1) 1).foldl gmacDisableStep regs0
    else regs0
  let qm := activeQueueMask cfg.queue_mask dcfg6
  let num_queues := numActiveQueues qm
  let dummy1 : Desc := { addr := 0, ctrl := MACB_BIT MACB_TX_USED_OFFSET }
  let spq := ilog2 (segTotal / num_queues)
  let final :=
    (whileLTAux (num_queues - 1) 1).foldl (gmacQueueStep cfg qm dummy_paddr spq)
      (regs1, 0, 0)
  let regs3 := if cfg.allocate_segments_equally then
                 { final.1 with seg_alloc_lower := final.2.1, seg_alloc_upper := final.2.2 }
               else final.1
  (regs3, dummy1)

/-- Nibble accessor for reading the two segment-allocation registers: the
4-bit field at nibble position `j` of `x`. -/
def nib (j x : Nat) : Nat := (x >>> (j * 4)) &&& 15

/-! ## Theorems: TX path (claims C3, C4, C8, C9) -/

theorem updDesc_same (ring : Nat → Desc) (j : Nat) (d : Desc) : updDesc ring j d j = d := by
  simp [updDesc]

theorem updDesc_other (ring : Nat → Desc) (j j' : Nat) (d : Desc) (h : j' ≠ j) :
    updDesc ring j d j' = ring j' := by
  simp [updDesc, h]

theorem send_tx_ring_char (cfg64 : Bool) (s : TxState) (paddr length : Nat)
    (hw : Nat → Nat) (j : Nat) :
    (_macb_send cfg64 s paddr length hw).tx_ring j =
      (if j = (if cfg64 then s.tx_head * 2 else s.tx_head) then
        ({ addr := lower_32_bits paddr,
           ctrl := if s.tx_head = MACB_TX_RING_SIZE - 1 then
               (length &&& TXBUF_FRMLEN_MASK) ||| MACB_BIT MACB_TX_LAST_OFFSET |||
                 MACB_BIT MACB_TX_WRAP_OFFSET
             else (length &&& TXBUF_FRMLEN_MASK) ||| MACB_BIT MACB_TX_LAST_OFFSET } : Desc)
      else if cfg64 = true ∧ j = (if cfg64 then s.tx_head * 2 else s.tx_head) + 1 then
        { addr := upper_32_bits paddr, ctrl := (s.tx_ring j).ctrl }
      else s.tx_ring j) := by
  cases cfg64 with
  | false =>
    by_cases hj : j = s.tx_head
    · subst hj; simp [_macb_send, macb_set_addr, updDesc]
    · simp [_macb_send, macb_set_addr, updDesc, hj]
  | true =>
    by_cases hj : j = s.tx_head * 2
    · subst hj; simp [_macb_send, macb_set_addr, updDesc]
    · by_cases hj2 : j = s.tx_head * 2 + 1
      · subst hj2; simp [_macb_send, macb_set_addr, updDesc]
      · simp [_macb_send, macb_set_addr, updDesc, hj, hj2]

/-- C3: each call to send writes exactly one descriptor, at the current
producer index: its control word is the length masked to the 11-bit TX
length field with the last-buffer flag, plus the wrap flag exactly when the
producer index is `MACB_TX_RING_SIZE - 1`; its address word is the low
32 bits of the mapped address; every other logical descriptor (both of its
ring slots in 64-bit mode) is untouched; and the producer index advances by
one modulo `MACB_TX_RING_SIZE`. -/
theorem send_writes_one_descriptor (cfg64 : Bool) (s : TxState) (paddr length : Nat)
    (hw : Nat → Nat) (hh : s.tx_head < MACB_TX_RING_SIZE) :
    ((_macb_send cfg64 s paddr length hw).tx_ring
        (if cfg64 then s.tx_head * 2 else s.tx_head)).ctrl =
      ((length &&& TXBUF_FRMLEN_MASK) ||| MACB_BIT MACB_TX_LAST_OFFSET |||
        (if s.tx_head = MACB_TX_RING_SIZE - 1 then MACB_BIT MACB_TX_WRAP_OFFSET else 0))
    ∧ ((_macb_send cfg64 s paddr length hw).tx_ring
        (if cfg64 then s.tx_head * 2 else s.tx_head)).addr = lower_32_bits paddr
    ∧ (∀ j, j ≠ (if cfg64 then s.tx_head * 2 else s.tx_head) →
        (cfg64 = true → j ≠ (if cfg64 then s.tx_head * 2 else s.tx_head) + 1) →
        (_macb_send cfg64 s paddr length hw).tx_ring j = s.tx_ring j)
    ∧ (_macb_send cfg64 s paddr length hw).tx_head = (s.tx_head + 1) % MACB_TX_RING_SIZE := by
  refine ⟨?_, ?_, ?_, ?_⟩
  · rw [send_tx_ring_char, if_pos rfl]
    by_cases h : s.tx_head = MACB_TX_RING_SIZE - 1
    · simp [h]
    · simp [h, Nat.or_zero]
  · rw [send_tx_ring_char, if_pos rfl]
  · intro j hj hj64
    rw [send_tx_ring_char]
    rw [if_neg hj, if_neg]
    rintro ⟨hc, hj2⟩
    exact hj64 hc hj2
  · simp only [_macb_send]
    split
    · next h =>
      rw [h]
      decide
    · next h =>
      have hlt : s.tx_head + 1 < MACB_TX_RING_SIZE := by
        simp only [MACB_TX_RING_SIZE] at hh h ⊢
        omega
      exact (Nat.mod_eq_of_lt hlt).symm

/-- C3 witness: concrete application at producer index 0 of a fresh ring. -/
theorem send_writes_one_descriptor_witness :
    (0 : Nat) < MACB_TX_RING_SIZE ∧
    (_macb_send false ⟨fun _ => ⟨0, 0⟩, 0⟩ 0x2000 100
        (fun _ => MACB_BIT MACB_TX_USED_OFFSET)).tx_head = (0 + 1) % MACB_TX_RING_SIZE :=
  ⟨by decide,
   (send_writes_one_descriptor false ⟨fun _ => ⟨0, 0⟩, 0⟩ 0x2000 100
      (fun _ => MACB_BIT MACB_TX_USED_OFFSET) (by decide)).2.2.2⟩

/-- C4 counterexample: with hardware that never sets the ownership bit,
send does report the timeout, but its return value is the same integer 0
that the immediately-completing run returns — the timeout is not returned
to the caller as a result distinct from success. -/
theorem send_timeout_return_counterexample :
    (_macb_send false ⟨fun _ => ⟨0, 0⟩, 0⟩ 0 64 (fun _ => 0)).reports = [TxReport.timeout]
    ∧ (_macb_send false ⟨fun _ => ⟨0, 0⟩, 0⟩ 0 64 (fun _ => 0)).ret =
      (_macb_send false ⟨fun _ => ⟨0, 0⟩, 0⟩ 0 64
        (fun _ => MACB_BIT MACB_TX_USED_OFFSET)).ret := by
  constructor
  · have hnone : pollTxUsed (fun _ => (0 : Nat)) = none := by
      simp [pollTxUsed]
    simp [_macb_send, hnone]
  · rfl

/-- C4 (amended): if the hardware ownership bit on the submitted descriptor
does not become set within the `MACB_TX_TIMEOUT + 1` poll iterations, send
reports the timeout condition as a log message only; its integer result is
0, the same value as on success, so the caller receives no distinct
failure code. -/
theorem send_timeout_reports_only (cfg64 : Bool) (s : TxState) (paddr length : Nat)
    (hw : Nat → Nat)
    (hstuck : ∀ i, i ≤ MACB_TX_TIMEOUT → (hw i).testBit MACB_TX_USED_OFFSET = false) :
    (_macb_send cfg64 s paddr length hw).reports = [TxReport.timeout]
    ∧ (_macb_send cfg64 s paddr length hw).ret = 0 := by
  have hnone : pollTxUsed hw = none := by
    simp only [pollTxUsed, List.find?_eq_none]
    intro i hi
    have hi' : i ≤ MACB_TX_TIMEOUT := by
      have := List.mem_range.mp hi
      omega
    simp [hstuck i hi']
  exact ⟨by simp [_macb_send, hnone], rfl⟩

/-- C4 witness: the stuck-hardware oracle satisfies the hypothesis and the
amended conclusion holds for it. -/
theorem send_timeout_reports_only_witness :
    (∀ i, i ≤ MACB_TX_TIMEOUT → ((fun _ => (0 : Nat)) i).testBit MACB_TX_USED_OFFSET = false)
    ∧ (_macb_send false ⟨fun _ => ⟨0, 0⟩, 0⟩ 0 64 (fun _ => 0)).reports = [TxReport.timeout] :=
  ⟨fun _ _ => by simp,
   (send_timeout_reports_only false ⟨fun _ => ⟨0, 0⟩, 0⟩ 0 64 (fun _ => 0)
      (fun _ _ => by simp)).1⟩

/-- C8: on every path through send — prompt completion, completion with
warnings, or timeout — the DMA mapping taken at entry has been released
before the function returns. -/
theorem send_always_unmaps (cfg64 : Bool) (s : TxState) (paddr length : Nat)
    (hw : Nat → Nat) :
    (_macb_send cfg64 s paddr length hw).mapped = false := rfl

/-- C9: for every input buffer address, length and hardware outcome, send
returns the integer 0. -/
theorem send_always_returns_zero (cfg64 : Bool) (s : TxState) (paddr length : Nat)
    (hw : Nat → Nat) :
    (_macb_send cfg64 s paddr length hw).ret = 0 := rfl

/-! ## Theorems: deferred RX reclaim (claims C2, C10) -/

theorem whileLTAux_mem : ∀ (n i j : Nat), j ∈ whileLTAux n i ↔ i ≤ j ∧ j < i + n
  | 0, i, j => by
    simp only [whileLTAux, List.not_mem_nil, false_iff]
    omega
  | n + 1, i, j => by
    simp only [whileLTAux, List.mem_cons, whileLTAux_mem n (i + 1) j]
    omega

theorem whileLTAux_nodup : ∀ (n i : Nat), (whileLTAux n i).Nodup
  | 0, _ => by simp [whileLTAux]
  | n + 1, i => by
    rw [whileLTAux, List.nodup_cons]
    refine ⟨fun hmem => ?_, whileLTAux_nodup n (i + 1)⟩
    have := (whileLTAux_mem n (i + 1) i).mp hmem
    omega

theorem lineStart_eq :
    ∀ k < 6, ∀ idx < 32, idx &&& (2 ^ k - 1) = 2 ^ k - 1 →
      idx &&& (0xffffffff ^^^ (2 ^ k - 1)) = idx + 1 - 2 ^ k := by decide

theorem and_mask_eq_mod : ∀ k < 6, ∀ t < 32, t &&& (2 ^ k - 1) = t % 2 ^ k := by decide

theorem lineLast_intervals_disjoint (k t1 t2 j : Nat)
    (h1 : t1 % 2 ^ k = 2 ^ k - 1) (h2 : t2 % 2 ^ k = 2 ^ k - 1) (hne : t1 ≠ t2)
    (hj1 : t1 + 1 - 2 ^ k ≤ j) (hj1' : j ≤ t1) (hj2 : t2 + 1 - 2 ^ k ≤ j)
    (hj2' : j ≤ t2) : False := by
  have hm : 0 < 2 ^ k := Nat.pos_pow_of_pos k (by omega)
  have e1 := Nat.div_add_mod t1 (2 ^ k)
  have e2 := Nat.div_add_mod t2 (2 ^ k)
  have hq : t1 / 2 ^ k ≠ t2 / 2 ^ k := by
    intro h
    rw [h] at e1
    omega
  rcases Nat.lt_or_ge (t1 / 2 ^ k) (t2 / 2 ^ k) with hlt | hge
  · have := Nat.mul_le_mul_left (2 ^ k) (show t1 / 2 ^ k + 1 ≤ t2 / 2 ^ k by omega)
    rw [Nat.mul_succ] at this
    omega
  · have hlt2 : t2 / 2 ^ k < t1 / 2 ^ k := by omega
    have := Nat.mul_le_mul_left (2 ^ k) (show t2 / 2 ^ k + 1 ≤ t1 / 2 ^ k by omega)
    rw [Nat.mul_succ] at this
    omega

theorem reclaim_rx_buffer_skip (cfg64 : Bool) (minalign : Nat) (ring : Nat → Desc)
    (idx : Nat) (h : idx &&& lineMask cfg64 minalign ≠ lineMask cfg64 minalign) :
    reclaim_rx_buffer cfg64 minalign ring idx = (ring, []) := by
  simp [reclaim_rx_buffer, h]

theorem clearRxUsed_idem (d : Desc) : clearRxUsed (clearRxUsed d) = clearRxUsed d := by
  simp [clearRxUsed, Nat.and_assoc]

theorem foldl_clear_char (shift : Nat) :
    ∀ (l : List Nat) (ring : Nat → Desc) (j : Nat),
    (l.foldl (fun r i => updDesc r (i <<< shift) (clearRxUsed (r (i <<< shift)))) ring) j =
      if ∃ i ∈ l, j = i <<< shift then clearRxUsed (ring j) else ring j
  | [], ring, j => by simp
  | a :: l, ring, j => by
    rw [List.foldl_cons, foldl_clear_char shift l _ j]
    by_cases hja : j = a <<< shift
    · subst hja
      rw [updDesc_same]
      by_cases hjl : ∃ i ∈ l, a <<< shift = i <<< shift
      · rw [if_pos hjl, if_pos ⟨a, List.mem_cons_self a l, rfl⟩, clearRxUsed_idem]
      · rw [if_neg hjl, if_pos ⟨a, List.mem_cons_self a l, rfl⟩]
    · rw [updDesc_other _ _ _ _ hja]
      by_cases hjl : ∃ i ∈ l, j = i <<< shift
      · rw [if_pos hjl, if_pos]
        obtain ⟨i, hi, hij⟩ := hjl
        exact ⟨i, List.mem_cons_of_mem a hi, hij⟩
      · rw [if_neg hjl, if_neg]
        rintro ⟨i, hi, hij⟩
        rcases List.mem_cons.mp hi with rfl | hi'
        · exact hja hij
        · exact hjl ⟨i, hi', hij⟩

theorem reclaim_rx_buffer_line_char (cfg64 : Bool) (minalign k : Nat)
    (hdpl : descPerCacheline cfg64 minalign = 2 ^ k) (hk : k < 6)
    (ring : Nat → Desc) (idx : Nat) (hidx : idx < MACB_RX_RING_SIZE)
    (h : idx &&& lineMask cfg64 minalign = lineMask cfg64 minalign) :
    (reclaim_rx_buffer cfg64 minalign ring idx).2 =
      whileLTAux (descPerCacheline cfg64 minalign)
        (idx + 1 - descPerCacheline cfg64 minalign)
    ∧ (∀ j, (∃ i ∈ whileLTAux (descPerCacheline cfg64 minalign)
          (idx + 1 - descPerCacheline cfg64 minalign), j = i <<< lineShift cfg64) →
        (reclaim_rx_buffer cfg64 minalign ring idx).1 j = clearRxUsed (ring j))
    ∧ (∀ j, (¬ ∃ i ∈ whileLTAux (descPerCacheline cfg64 minalign)
          (idx + 1 - descPerCacheline cfg64 minalign), j = i <<< lineShift cfg64) →
        (reclaim_rx_buffer cfg64 minalign ring idx).1 j = ring j) := by
  have hmask : lineMask cfg64 minalign = 2 ^ k - 1 := by rw [lineMask, hdpl]
  rw [hmask] at h
  have hle : 2 ^ k - 1 ≤ idx := by
    calc 2 ^ k - 1 = idx &&& (2 ^ k - 1) := h.symm
    _ ≤ idx := Nat.and_le_left
  have hstart : idx &&& (0xffffffff ^^^ lineMask cfg64 minalign) = idx + 1 - 2 ^ k := by
    rw [hmask]
    exact lineStart_eq k hk idx hidx h
  have hpos : 0 < 2 ^ k := Nat.two_pow_pos k
  have hcount : idx + 1 - (idx + 1 - 2 ^ k) = 2 ^ k := by omega
  have hnotne : ¬idx &&& lineMask cfg64 minalign ≠ lineMask cfg64 minalign := by
    rw [hmask]; exact fun hc => hc h
  rw [hdpl]
  refine ⟨?_, ?_, ?_⟩
  · simp only [reclaim_rx_buffer, if_neg hnotne, hstart, hcount]
  · intro j hx
    simp only [reclaim_rx_buffer, if_neg hnotne, hstart, hcount]
    rw [foldl_clear_char, if_pos hx]
  · intro j hx
    simp only [reclaim_rx_buffer, if_neg hnotne, hstart, hcount]
    rw [foldl_clear_char, if_neg hx]

theorem reclaim_rx_buffer_snd_indep (cfg64 : Bool) (minalign : Nat)
    (r1 r2 : Nat → Desc) (idx : Nat) :
    (reclaim_rx_buffer cfg64 minalign r1 idx).2 =
      (reclaim_rx_buffer cfg64 minalign r2 idx).2 := by
  by_cases h : idx &&& lineMask cfg64 minalign ≠ lineMask cfg64 minalign <;>
    simp [reclaim_rx_buffer, h]

theorem reclaim_fold_snd (cfg64 : Bool) (minalign : Nat) :
    ∀ (l : List Nat) (ring : Nat → Desc) (acc : List Nat),
    (l.foldl (reclaimStep cfg64 minalign) (ring, acc)).2 =
      acc ++ l.flatMap fun t => (reclaim_rx_buffer cfg64 minalign ring t).2
  | [], ring, acc => by simp
  | a :: l, ring, acc => by
    rw [List.foldl_cons, List.flatMap_cons]
    have hstep : reclaimStep cfg64 minalign (ring, acc) a =
        ((reclaim_rx_buffer cfg64 minalign ring a).1,
          acc ++ (reclaim_rx_buffer cfg64 minalign ring a).2) := rfl
    rw [hstep, reclaim_fold_snd cfg64 minalign l _ _, List.append_assoc]
    congr 2
    exact congrArg (fun f => l.flatMap f) (funext fun t =>
      reclaim_rx_buffer_snd_indep cfg64 minalign _ ring t)

theorem reclaim_fold_fst (cfg64 : Bool) (minalign : Nat) :
    ∀ (l : List Nat) (ring : Nat → Desc) (acc : List Nat),
    (l.foldl (reclaimStep cfg64 minalign) (ring, acc)).1 =
      l.foldl (fun r t => (reclaim_rx_buffer cfg64 minalign r t).1) ring
  | [], ring, acc => by simp
  | a :: l, ring, acc => by
    rw [List.foldl_cons, List.foldl_cons]
    exact reclaim_fold_fst cfg64 minalign l _ _

theorem reclaim_rx_buffer_pointwise (cfg64 : Bool) (minalign : Nat) (ring : Nat → Desc)
    (idx j : Nat) :
    (reclaim_rx_buffer cfg64 minalign ring idx).1 j = ring j ∨
    (reclaim_rx_buffer cfg64 minalign ring idx).1 j = clearRxUsed (ring j) := by
  by_cases h : idx &&& lineMask cfg64 minalign ≠ lineMask cfg64 minalign
  · rw [reclaim_rx_buffer_skip cfg64 minalign ring idx h]
    exact Or.inl rfl
  · simp only [reclaim_rx_buffer, if_neg h]
    rw [foldl_clear_char]
    split
    · exact Or.inr rfl
    · exact Or.inl rfl

theorem fold_reclaim_pointwise (cfg64 : Bool) (minalign : Nat) :
    ∀ (l : List Nat) (ring : Nat → Desc) (j : Nat),
    ((l.foldl (fun r t => (reclaim_rx_buffer cfg64 minalign r t).1) ring) j = ring j) ∨
    ((l.foldl (fun r t => (reclaim_rx_buffer cfg64 minalign r t).1) ring) j =
      clearRxUsed (ring j))
  | [], ring, j => Or.inl rfl
  | a :: l, ring, j => by
    rw [List.foldl_cons]
    have h1 := reclaim_rx_buffer_pointwise cfg64 minalign ring a j
    have h2 := fold_reclaim_pointwise cfg64 minalign l
      ((reclaim_rx_buffer cfg64 minalign ring a).1) j
    rcases h1 with h1 | h1 <;> rcases h2 with h2 | h2 <;> rw [h2, h1]
    · exact Or.inl rfl
    · exact Or.inr rfl
    · exact Or.inr rfl
    · exact Or.inr (clearRxUsed_idem (ring j))

theorem reclaim_events_mem (cfg64 : Bool) (minalign k : Nat)
    (hdpl : descPerCacheline cfg64 minalign = 2 ^ k) (hk : k < 6)
    (ring : Nat → Desc) (t : Nat) (ht : t < MACB_RX_RING_SIZE) (j : Nat)
    (hj : j ∈ (reclaim_rx_buffer cfg64 minalign ring t).2) :
    t &&& lineMask cfg64 minalign = lineMask cfg64 minalign ∧
      t + 1 - descPerCacheline cfg64 minalign ≤ j ∧ j ≤ t := by
  rw [hdpl]
  by_cases h : t &&& lineMask cfg64 minalign ≠ lineMask cfg64 minalign
  · rw [reclaim_rx_buffer_skip cfg64 minalign ring t h] at hj
    simp at hj
  · have h' : t &&& lineMask cfg64 minalign = lineMask cfg64 minalign := by
      by_contra hc
      exact h hc
    have hchar := (reclaim_rx_buffer_line_char cfg64 minalign k hdpl hk ring t ht h').1
    rw [hchar, hdpl] at hj
    have hmem := (whileLTAux_mem (2 ^ k) (t + 1 - 2 ^ k) j).mp hj
    have hle : 2 ^ k - 1 ≤ t := by
      have hmask : lineMask cfg64 minalign = 2 ^ k - 1 := by rw [lineMask, hdpl]
      rw [hmask] at h'
      calc 2 ^ k - 1 = t &&& (2 ^ k - 1) := h'.symm
      _ ≤ t := Nat.and_le_left
    have hpos : 0 < 2 ^ k := Nat.two_pow_pos k
    exact ⟨h', by omega, by omega⟩

theorem cleared_bind_nodup (cfg64 : Bool) (minalign k : Nat)
    (hdpl : descPerCacheline cfg64 minalign = 2 ^ k) (hk : k < 6) (ring : Nat → Desc) :
    ∀ l : List Nat, l.Nodup → (∀ t ∈ l, t < MACB_RX_RING_SIZE) →
    (l.flatMap fun t => (reclaim_rx_buffer cfg64 minalign ring t).2).Nodup
  | [], _, _ => by simp
  | a :: l, hnd, hlt => by
    rw [List.flatMap_cons]
    have hnd' := List.nodup_cons.mp hnd
    refine List.Nodup.append ?_ ?_ ?_
    · by_cases h : a &&& lineMask cfg64 minalign ≠ lineMask cfg64 minalign
      · rw [reclaim_rx_buffer_skip cfg64 minalign ring a h]
        exact List.nodup_nil
      · have h' : a &&& lineMask cfg64 minalign = lineMask cfg64 minalign := by
          by_contra hc; exact h hc
        rw [(reclaim_rx_buffer_line_char cfg64 minalign k hdpl hk ring a
          (hlt a (List.mem_cons_self a l)) h').1]
        exact whileLTAux_nodup _ _
    · exact cleared_bind_nodup cfg64 minalign k hdpl hk ring l hnd'.2
        fun t ht => hlt t (List.mem_cons_of_mem a ht)
    · rw [List.disjoint_left]
      intro j hja hjl
      obtain ⟨t, htl, hjt⟩ := List.mem_flatMap.mp hjl
      have ha := reclaim_events_mem cfg64 minalign k hdpl hk ring a
        (hlt a (List.mem_cons_self a l)) j hja
      have hb := reclaim_events_mem cfg64 minalign k hdpl hk ring t
        (hlt t (List.mem_cons_of_mem a htl)) j hjt
      have hane : a ≠ t := fun h => hnd'.1 (h ▸ htl)
      have hmask : lineMask cfg64 minalign = 2 ^ k - 1 := by rw [lineMask, hdpl]
      rw [hmask, hdpl] at ha hb
      have ha' : a % 2 ^ k = 2 ^ k - 1 := by
        rw [← and_mask_eq_mod k hk a (hlt a (List.mem_cons_self a l))]
        exact ha.1
      have hb' : t % 2 ^ k = 2 ^ k - 1 := by
        rw [← and_mask_eq_mod k hk t (hlt t (List.mem_cons_of_mem a htl))]
        exact hb.1
      exact lineLast_intervals_disjoint k a t j ha' hb' hane
        ha.2.1 ha.2.2 hb.2.1 hb.2.2

theorem reclaimVisits_lt (rx_tail nt : Nat) (hnt : nt < MACB_RX_RING_SIZE) :
    ∀ t ∈ reclaimVisits rx_tail nt, t < MACB_RX_RING_SIZE := by
  have h32 : MACB_RX_RING_SIZE = 32 := rfl
  intro t ht
  rw [reclaimVisits, reclaimVisitsAbove, reclaimAboveFinal] at ht
  rw [h32] at ht hnt ⊢
  by_cases h : nt < rx_tail
  · rw [if_pos h, if_pos h] at ht
    rcases List.mem_append.mp ht with hm | hm
    · have := (whileLTAux_mem _ _ _).mp hm
      omega
    · have := (whileLTAux_mem _ _ _).mp hm
      omega
  · rw [if_neg h, if_neg h] at ht
    rcases List.mem_append.mp ht with hm | hm
    · simp at hm
    · have := (whileLTAux_mem _ _ _).mp hm
      omega

theorem reclaimVisits_nodup (rx_tail nt : Nat) : (reclaimVisits rx_tail nt).Nodup := by
  rw [reclaimVisits, reclaimVisitsAbove, reclaimAboveFinal]
  by_cases h : nt < rx_tail
  · rw [if_pos h, if_pos h]
    refine List.Nodup.append (whileLTAux_nodup _ _) (whileLTAux_nodup _ _) ?_
    rw [List.disjoint_left]
    intro t ht1 ht2
    have h1 := (whileLTAux_mem _ _ _).mp ht1
    have h2 := (whileLTAux_mem _ _ _).mp ht2
    omega
  · rw [if_neg h, if_neg h]
    simpa using whileLTAux_nodup (nt - rx_tail) rx_tail

/-- C2 counterexample: in the code, a reclaim pass always flushes the
descriptor-ring range, even when it reclaimed no line-last index and hence
cleared no ownership bit — so cache lines are flushed in passes where the
last descriptor index of the line was not reclaimed, contrary to the
claim's flush clause.  The inner proposition is the claim's flush
discipline over the model: flushes happen only when some line's last index
was reclaimed (cleared indices non-empty). -/
theorem reclaim_flush_per_line_counterexample :
    ¬ (∀ (cfg64 : Bool) (minalign : Nat) (s : RxState) (new_tail : Nat),
        (reclaim_rx_buffers cfg64 minalign s new_tail).flushes ≠ [] →
        (reclaim_rx_buffers cfg64 minalign s new_tail).cleared ≠ []) := by
  intro h
  exact h false 64 ⟨fun _ => ⟨1, 0⟩, 0, 0, false⟩ 1 (by decide) (by decide)

/-- C2 (amended): reclaiming descriptor index `idx` clears ownership bits
in memory only when `idx` is the last logical descriptor index within its
cache line (`idx AND line-mask = line-mask`, with descriptors-per-line
derived from the cache-line size and descriptor size, doubled slots in
64-bit mode); when it is, the ownership bit is cleared for every descriptor
of that line; within one reclaim pass no index is cleared twice, and every
cleared index lies in the cache line of a reclaimed line-last index.  The
cache flush, however, is issued once per reclaim pass over the whole
descriptor-ring range, not per cache line. -/
theorem reclaim_line_clear_discipline (cfg64 : Bool) (minalign k : Nat)
    (s : RxState) (new_tail : Nat)
    (hdpl : descPerCacheline cfg64 minalign = 2 ^ k) (hk : k < 6)
    (htail : s.rx_tail < MACB_RX_RING_SIZE) (hnt : new_tail < MACB_RX_RING_SIZE) :
    (∀ (ring : Nat → Desc) (idx : Nat),
      idx &&& lineMask cfg64 minalign ≠ lineMask cfg64 minalign →
      reclaim_rx_buffer cfg64 minalign ring idx = (ring, []))
    ∧ (∀ (ring : Nat → Desc) (idx : Nat), idx < MACB_RX_RING_SIZE →
        idx &&& lineMask cfg64 minalign = lineMask cfg64 minalign →
        (reclaim_rx_buffer cfg64 minalign ring idx).2 =
          whileLTAux (descPerCacheline cfg64 minalign)
            (idx + 1 - descPerCacheline cfg64 minalign)
        ∧ (∀ j, (∃ i ∈ whileLTAux (descPerCacheline cfg64 minalign)
              (idx + 1 - descPerCacheline cfg64 minalign), j = i <<< lineShift cfg64) →
            (reclaim_rx_buffer cfg64 minalign ring idx).1 j = clearRxUsed (ring j))
        ∧ (∀ j, (¬ ∃ i ∈ whileLTAux (descPerCacheline cfg64 minalign)
              (idx + 1 - descPerCacheline cfg64 minalign), j = i <<< lineShift cfg64) →
            (reclaim_rx_buffer cfg64 minalign ring idx).1 j = ring j))
    ∧ (reclaim_rx_buffers cfg64 minalign s new_tail).cleared.Nodup
    ∧ (∀ j ∈ (reclaim_rx_buffers cfg64 minalign s new_tail).cleared,
        ∃ t ∈ reclaimVisits s.rx_tail new_tail,
          t &&& lineMask cfg64 minalign = lineMask cfg64 minalign ∧
          t + 1 - descPerCacheline cfg64 minalign ≤ j ∧ j ≤ t)
    ∧ (reclaim_rx_buffers cfg64 minalign s new_tail).flushes =
        [(0, MACB_RX_DMA_DESC_SIZE)] := by
  have hcleared : (reclaim_rx_buffers cfg64 minalign s new_tail).cleared =
      (reclaimVisits s.rx_tail new_tail).flatMap
        fun t => (reclaim_rx_buffer cfg64 minalign s.rx_ring t).2 := by
    show ((reclaimVisits s.rx_tail new_tail).foldl
      (reclaimStep cfg64 minalign) (s.rx_ring, [])).2 = _
    rw [reclaim_fold_snd]
    rfl
  refine ⟨?_, ?_, ?_, ?_, rfl⟩
  · exact fun ring idx h => reclaim_rx_buffer_skip cfg64 minalign ring idx h
  · exact fun ring idx hlt h =>
      reclaim_rx_buffer_line_char cfg64 minalign k hdpl hk ring idx hlt h
  · rw [hcleared]
    exact cleared_bind_nodup cfg64 minalign k hdpl hk s.rx_ring _
      (reclaimVisits_nodup _ _) (reclaimVisits_lt _ _ hnt)
  · intro j hj
    rw [hcleared] at hj
    obtain ⟨t, htl, hjt⟩ := List.mem_flatMap.mp hj
    have := reclaim_events_mem cfg64 minalign k hdpl hk s.rx_ring t
      (reclaimVisits_lt _ _ hnt t htl) j hjt
    exact ⟨t, htl, this⟩

/-- C2 witness: with a 64-byte cache line and 32-bit descriptors (8 per
line, so `k = 3`), reclaiming indices 0..8 of a fresh ring satisfies the
discipline; in particular, the cleared event list has no duplicates. -/
theorem reclaim_line_clear_discipline_witness :
    descPerCacheline false 64 = 2 ^ 3
    ∧ (reclaim_rx_buffers false 64 ⟨fun _ => ⟨1, 0⟩, 0, 0, false⟩ 9).cleared.Nodup :=
  ⟨by decide,
   (reclaim_line_clear_discipline false 64 3 ⟨fun _ => ⟨1, 0⟩, 0, 0, false⟩ 9
      (by decide) (by decide) (by decide) (by decide)).2.2.1⟩

theorem testBit_fffffffe_true : ∀ kk < 32, kk ≠ 0 → (0xfffffffe : Nat).testBit kk = true := by
  decide

theorem testBit_clear_addr (a kk : Nat) (ha : a < 2 ^ 32) (hkk : kk ≠ 0) :
    (a &&& (0xffffffff ^^^ MACB_BIT MACB_RX_USED_OFFSET)).testBit kk = a.testBit kk := by
  have hm : (0xffffffff ^^^ MACB_BIT MACB_RX_USED_OFFSET : Nat) = 0xfffffffe := by decide
  rw [hm]
  rcases Nat.lt_or_ge kk 32 with h | h
  · rw [Nat.testBit_and, testBit_fffffffe_true kk h hkk, Bool.and_true]
  · have h1 : a.testBit kk = false :=
      Nat.testBit_lt_two_pow (lt_of_lt_of_le ha (Nat.pow_le_pow_right (by omega) h))
    rw [Nat.testBit_and, h1, Bool.false_and]

/-- C10: a reclaim pass modifies only the ownership bit of descriptors'
address words — control words are untouched and every address-word bit
other than `RX_USED` (in particular the buffer address bits and the wrap
marker) keeps its value — and the only driver-state field it updates is the
reclaim tail, which is set to the requested new tail. -/
theorem reclaim_preserves_addr_and_ctrl (cfg64 : Bool) (minalign : Nat) (s : RxState)
    (new_tail : Nat) (haddr : ∀ j, (s.rx_ring j).addr < 2 ^ 32) :
    (∀ j, ((reclaim_rx_buffers cfg64 minalign s new_tail).state.rx_ring j).ctrl =
      (s.rx_ring j).ctrl)
    ∧ (∀ j kk, kk ≠ MACB_RX_USED_OFFSET →
        ((reclaim_rx_buffers cfg64 minalign s new_tail).state.rx_ring j).addr.testBit kk =
          (s.rx_ring j).addr.testBit kk)
    ∧ (reclaim_rx_buffers cfg64 minalign s new_tail).state.rx_tail = new_tail
    ∧ (reclaim_rx_buffers cfg64 minalign s new_tail).state.next_rx_tail = s.next_rx_tail
    ∧ (reclaim_rx_buffers cfg64 minalign s new_tail).state.wrapped = s.wrapped := by
  have hring : ∀ j, ((reclaim_rx_buffers cfg64 minalign s new_tail).state.rx_ring j =
      s.rx_ring j) ∨
      ((reclaim_rx_buffers cfg64 minalign s new_tail).state.rx_ring j =
        clearRxUsed (s.rx_ring j)) := by
    intro j
    show ((reclaimVisits s.rx_tail new_tail).foldl
      (reclaimStep cfg64 minalign) (s.rx_ring, [])).1 j = _ ∨
      ((reclaimVisits s.rx_tail new_tail).foldl
        (reclaimStep cfg64 minalign) (s.rx_ring, [])).1 j = _
    rw [reclaim_fold_fst]
    exact fold_reclaim_pointwise cfg64 minalign _ s.rx_ring j
  refine ⟨?_, ?_, rfl, rfl, rfl⟩
  · intro j
    rcases hring j with h | h <;> rw [h]
    rfl
  · intro j kk hkk
    rcases hring j with h | h <;> rw [h]
    exact testBit_clear_addr (s.rx_ring j).addr kk (haddr j) hkk

/-- C10 witness: concrete reclaim pass on a ring of 32-bit address words;
the reclaim tail is set to the requested new tail. -/
theorem reclaim_preserves_addr_and_ctrl_witness :
    (∀ j, (((fun _ => ⟨1, 0⟩ : Nat → Desc) j).addr < 2 ^ 32))
    ∧ (reclaim_rx_buffers false 64 ⟨fun _ => ⟨1, 0⟩, 2, 0, false⟩ 5).state.rx_tail = 5 :=
  ⟨fun _ => by show (1 : Nat) < 2 ^ 32; decide,
   (reclaim_preserves_addr_and_ctrl false 64 ⟨fun _ => ⟨1, 0⟩, 2, 0, false⟩ 5
      (fun _ => by show (1 : Nat) < 2 ^ 32; decide)).2.2.1⟩

/-! ## Theorems: RX receive (claims C1, C7) -/

theorem bool_ne_true {b : Bool} (h : b = false) : ¬(b = true) := by
  rw [h]
  exact Bool.false_ne_true

set_option maxHeartbeats 1600000 in
theorem recvLoop_result (cfg64 : Bool) (minalign : Nat) (pool scratch0 : Nat → Nat) (bs : Nat) :
    ∀ (fuel : Nat) (s : RxState) (next : Nat) (flag : Bool) (r : RecvResult),
    recvLoop cfg64 minalign pool scratch0 bs fuel s next flag = some r →
    (r.ret = -11 ↔ r.usedAtExamined = false)
    ∧ (r.ret = -11 →
        (r.state.rx_ring r.examined).addr.testBit MACB_RX_USED_OFFSET = false)
    ∧ ((s.rx_ring (if cfg64 then next * 2 else next)).addr.testBit
        MACB_RX_USED_OFFSET = false → r.ret = -11)
    ∧ (r.ret = -11 ∨ ∃ n : Nat, r.ret = Int.ofNat n ∧ n ≤ RXBUF_FRMLEN_MASK)
    ∧ ((0 : Int) ≤ r.ret → r.wrappedAtEOF = true → ∀ i, r.packet i =
        if i < bs * (MACB_RX_RING_SIZE - r.tailAtEOF) then pool (bs * r.tailAtEOF + i)
        else if i < bs * (MACB_RX_RING_SIZE - r.tailAtEOF) +
            (r.ret.toNat - bs * (MACB_RX_RING_SIZE - r.tailAtEOF)) then
          pool (i - bs * (MACB_RX_RING_SIZE - r.tailAtEOF))
        else scratch0 i)
    ∧ ((0 : Int) ≤ r.ret → r.wrappedAtEOF = false → ∀ i, r.packet i =
        pool (bs * r.tailAtEOF + i))
  | 0, s, next, flag, r => by
    intro hr
    simp [recvLoop] at hr
  | fuel + 1, s, next, flag, r => by
    intro hr
    simp only [recvLoop] at hr
    split at hr
    · -- cfg64 = true
      split at hr
      · -- descriptor owned by software
        split at hr
        · -- end-of-frame: a frame is returned
          rename_i hcf hu heof
          injection hr with h
          subst h
          refine ⟨⟨fun h => ?_, fun h => ?_⟩, fun h => ?_, fun hx => ?_,
            Or.inr ⟨_, rfl, Nat.and_le_right⟩, fun h0 hw i => ?_, fun h0 hw i => ?_⟩
          · dsimp only at h
            exact absurd h (by simp)
          · dsimp only at h
            rw [h] at hu
            exact Bool.noConfusion hu
          · dsimp only at h
            exact absurd h (by simp)
          · rw [if_pos hcf] at hx
            rw [hx] at hu
            exact Bool.noConfusion hu
          · dsimp only at hw ⊢
            rw [if_pos hw]
            rfl
          · dsimp only at hw ⊢
            rw [if_neg (bool_ne_true hw)]
        · -- not end-of-frame: continue scanning
          rename_i hcf hu heof
          obtain ⟨ih1, ih2, _, ih4, ih5, ih6⟩ :=
            recvLoop_result cfg64 minalign pool scratch0 bs fuel _ _ _ r hr
          refine ⟨ih1, ih2, fun hx => ?_, ih4, ih5, ih6⟩
          rw [if_pos hcf] at hx
          rw [hx] at hu
          exact Bool.noConfusion hu
      · -- descriptor still owned by hardware: no packet
        rename_i hcf hu
        rw [Bool.not_eq_true] at hu
        injection hr with h
        subst h
        refine ⟨⟨fun _ => hu, fun _ => rfl⟩, fun _ => hu, fun _ => rfl, Or.inl rfl,
          fun h0 => ?_, fun h0 => ?_⟩
        · dsimp only at h0
          exact absurd h0 (by decide)
        · dsimp only at h0
          exact absurd h0 (by decide)
    · -- cfg64 = false
      split at hr
      · split at hr
        · rename_i hcf hu heof
          injection hr with h
          subst h
          refine ⟨⟨fun h => ?_, fun h => ?_⟩, fun h => ?_, fun hx => ?_,
            Or.inr ⟨_, rfl, Nat.and_le_right⟩, fun h0 hw i => ?_, fun h0 hw i => ?_⟩
          · dsimp only at h
            exact absurd h (by simp)
          · dsimp only at h
            rw [h] at hu
            exact Bool.noConfusion hu
          · dsimp only at h
            exact absurd h (by simp)
          · rw [if_neg hcf] at hx
            rw [hx] at hu
            exact Bool.noConfusion hu
          · dsimp only at hw ⊢
            rw [if_pos hw]
            rfl
          · dsimp only at hw ⊢
            rw [if_neg (bool_ne_true hw)]
        · rename_i hcf hu heof
          obtain ⟨ih1, ih2, _, ih4, ih5, ih6⟩ :=
            recvLoop_result cfg64 minalign pool scratch0 bs fuel _ _ _ r hr
          refine ⟨ih1, ih2, fun hx => ?_, ih4, ih5, ih6⟩
          rw [if_neg hcf] at hx
          rw [hx] at hu
          exact Bool.noConfusion hu
      · rename_i hcf hu
        rw [Bool.not_eq_true] at hu
        injection hr with h
        subst h
        refine ⟨⟨fun _ => hu, fun _ => rfl⟩, fun _ => hu, fun _ => rfl, Or.inl rfl,
          fun h0 => ?_, fun h0 => ?_⟩
        · dsimp only at h0
          exact absurd h0 (by decide)
        · dsimp only at h0
          exact absurd h0 (by decide)

/-- C7: the receive poll returns the non-fatal no-packet value `-EAGAIN`
exactly when the descriptor at the scan cursor does not have its ownership
bit set (in particular it does so whenever the descriptor at the stored
cursor is not FILLED), and the receive path has no other error result:
every return value is either `-EAGAIN` or a frame byte length, which fits
the 12-bit RX length field. -/
theorem recv_no_packet_result (cfg64 : Bool) (minalign : Nat) (pool scratch0 : Nat → Nat)
    (bs fuel : Nat) (s : RxState) (r : RecvResult)
    (hr : _macb_recv cfg64 minalign pool scratch0 bs fuel s = some r) :
    (r.ret = -11 ↔ r.usedAtExamined = false)
    ∧ (r.ret = -11 →
        (r.state.rx_ring r.examined).addr.testBit MACB_RX_USED_OFFSET = false)
    ∧ ((s.rx_ring (if cfg64 then s.next_rx_tail * 2 else s.next_rx_tail)).addr.testBit
        MACB_RX_USED_OFFSET = false → r.ret = -11)
    ∧ (r.ret = -11 ∨ ∃ n : Nat, r.ret = Int.ofNat n ∧ n ≤ RXBUF_FRMLEN_MASK) := by
  simp only [_macb_recv] at hr
  have H := recvLoop_result cfg64 minalign pool scratch0 bs fuel _ _ _ r hr
  exact ⟨H.1, H.2.1, H.2.2.1, H.2.2.2.1⟩

set_option maxHeartbeats 4000000 in
/-- C7 witness: on a ring whose cursor descriptor has a clear ownership
bit, the poll returns `-EAGAIN`. -/
theorem recv_no_packet_result_witness :
    (_macb_recv false 64 (fun n => n) (fun _ => 0) 4 1 ⟨fun _ => ⟨0, 0⟩, 0, 0, false⟩ =
      some ((_macb_recv false 64 (fun n => n) (fun _ => 0) 4 1
        ⟨fun _ => ⟨0, 0⟩, 0, 0, false⟩).getD
          ⟨0, fun _ => 0, ⟨fun _ => ⟨0, 0⟩, 0, 0, false⟩, 0, false, 0, false⟩))
    ∧ ((_macb_recv false 64 (fun n => n) (fun _ => 0) 4 1
        ⟨fun _ => ⟨0, 0⟩, 0, 0, false⟩).getD
          ⟨0, fun _ => 0, ⟨fun _ => ⟨0, 0⟩, 0, 0, false⟩, 0, false, 0, false⟩).ret = -11 :=
  ⟨rfl,
   ((recv_no_packet_result false 64 (fun n => n) (fun _ => 0) 4 1
      ⟨fun _ => ⟨0, 0⟩, 0, 0, false⟩ _ rfl).1).mpr rfl⟩

/-- C1: when the end-of-frame descriptor is processed with the internal
wrapped flag set, the returned packet is the copy-assembly, into the
scratch buffer, of `rx_buffer_size * (MACB_RX_RING_SIZE - rx_tail)` bytes
taken from the buffer-pool slot at the reclaim tail followed by the
remaining bytes from the start of the buffer pool; under the geometric
side conditions (the tail is in range and headlen ≤ length ≤ pool size)
these bytes are exactly the original frame laid out by hardware across the
pool's wrap boundary.  When the wrapped flag is clear, the returned packet
is a direct reference into the buffer-pool slot at the reclaim tail. -/
theorem recv_wrapped_frame_reassembly (cfg64 : Bool) (minalign : Nat)
    (pool scratch0 : Nat → Nat) (bs fuel : Nat) (s : RxState) (r : RecvResult)
    (hr : _macb_recv cfg64 minalign pool scratch0 bs fuel s = some r)
    (hret : (0 : Int) ≤ r.ret) :
    (r.wrappedAtEOF = true → ∀ i, r.packet i =
        if i < bs * (MACB_RX_RING_SIZE - r.tailAtEOF) then pool (bs * r.tailAtEOF + i)
        else if i < bs * (MACB_RX_RING_SIZE - r.tailAtEOF) +
            (r.ret.toNat - bs * (MACB_RX_RING_SIZE - r.tailAtEOF)) then
          pool (i - bs * (MACB_RX_RING_SIZE - r.tailAtEOF))
        else scratch0 i)
    ∧ (r.wrappedAtEOF = true → r.tailAtEOF < MACB_RX_RING_SIZE →
        bs * (MACB_RX_RING_SIZE - r.tailAtEOF) ≤ r.ret.toNat →
        r.ret.toNat ≤ bs * MACB_RX_RING_SIZE →
        ∀ i < r.ret.toNat, r.packet i = originalFrameByte pool bs r.tailAtEOF i)
    ∧ (r.wrappedAtEOF = false → ∀ i, r.packet i = pool (bs * r.tailAtEOF + i)) := by
  simp only [_macb_recv] at hr
  obtain ⟨-, -, -, -, hB1, hB2⟩ :=
    recvLoop_result cfg64 minalign pool scratch0 bs fuel _ _ _ r hr
  refine ⟨hB1 hret, ?_, hB2 hret⟩
  intro hw htail hhead hlen i hi
  have hTH : bs * r.tailAtEOF + bs * (MACB_RX_RING_SIZE - r.tailAtEOF) =
      bs * MACB_RX_RING_SIZE := by
    rw [← Nat.mul_add]
    congr 1
    omega
  rw [hB1 hret hw i]
  simp only [originalFrameByte]
  by_cases hcase : i < bs * (MACB_RX_RING_SIZE - r.tailAtEOF)
  · rw [if_pos hcase, Nat.mod_eq_of_lt (by omega)]
  · rw [if_neg hcase, if_pos (by omega)]
    rw [Nat.mod_eq_sub_mod (by omega), Nat.mod_eq_of_lt (by omega)]
    congr 1
    omega

set_option maxHeartbeats 4000000 in
/-- C1 witness: slot size 4, a frame of 6 bytes spanning slots 31 and 0 of
the pool (slot 31 holds SOF, control word 16384; slot 0 holds EOF with
length 6, control word 32774); the reassembled byte at offset 5 equals the
original frame byte, which lives at pool offset 1 past the wrap. -/
theorem recv_wrapped_frame_reassembly_witness :
    (0 : Int) ≤ ((_macb_recv false 64 (fun n => n) (fun _ => 999) 4 2
      ⟨fun n => if n = 31 then ⟨1, 16384⟩ else if n = 0 then ⟨1, 32774⟩ else ⟨0, 0⟩,
        31, 31, false⟩).getD
      ⟨0, fun _ => 0, ⟨fun _ => ⟨0, 0⟩, 0, 0, false⟩, 0, false, 0, false⟩).ret
    ∧ ((_macb_recv false 64 (fun n => n) (fun _ => 999) 4 2
      ⟨fun n => if n = 31 then ⟨1, 16384⟩ else if n = 0 then ⟨1, 32774⟩ else ⟨0, 0⟩,
        31, 31, false⟩).getD
      ⟨0, fun _ => 0, ⟨fun _ => ⟨0, 0⟩, 0, 0, false⟩, 0, false, 0, false⟩).wrappedAtEOF = true
    ∧ ((_macb_recv false 64 (fun n => n) (fun _ => 999) 4 2
      ⟨fun n => if n = 31 then ⟨1, 16384⟩ else if n = 0 then ⟨1, 32774⟩ else ⟨0, 0⟩,
        31, 31, false⟩).getD
      ⟨0, fun _ => 0, ⟨fun _ => ⟨0, 0⟩, 0, 0, false⟩, 0, false, 0, false⟩).packet 5 =
      originalFrameByte (fun n => n) 4 31 5 := by
  refine ⟨by decide, by decide, ?_⟩
  exact (recv_wrapped_frame_reassembly false 64 (fun n => n) (fun _ => 999) 4 2
      ⟨fun n => if n = 31 then ⟨1, 16384⟩ else if n = 0 then ⟨1, 32774⟩ else ⟨0, 0⟩,
        31, 31, false⟩
      ((_macb_recv false 64 (fun n => n) (fun _ => 999) 4 2
        ⟨fun n => if n = 31 then ⟨1, 16384⟩ else if n = 0 then ⟨1, 32774⟩ else ⟨0, 0⟩,
          31, 31, false⟩).getD
        ⟨0, fun _ => 0, ⟨fun _ => ⟨0, 0⟩, 0, 0, false⟩, 0, false, 0, false⟩)
      rfl (by decide)).2.1 (by decide) (by decide) (by decide)
      (by decide) 5 (by decide)

/-! ## Theorems: GEM multi-queue initialisation (claims C5, C6) -/

theorem testBit_one_iff : ∀ i : Nat, Nat.testBit 1 i = decide (i = 0)
  | 0 => rfl
  | i + 1 => by
    rw [Nat.testBit_succ]
    simp

theorem testBit_ffff (i : Nat) : (0xffff : Nat).testBit i = decide (i < 16) := by
  rcases Nat.lt_or_ge i 16 with h | h
  · have hall : ∀ j < 16, (0xffff : Nat).testBit j = true := by decide
    rw [hall i h]
    exact (decide_eq_true h).symm
  · have h1 : (0xffff : Nat).testBit i = false :=
      Nat.testBit_lt_two_pow
        (lt_of_lt_of_le (by norm_num) (Nat.pow_le_pow_right (by omega) h))
    rw [h1]
    exact (decide_eq_false (by omega)).symm

theorem activeQueueMask_testBit (cfgMask dcfg6 : Nat) (hm : cfgMask ≠ 0) (i : Nat) :
    (activeQueueMask cfgMask dcfg6).testBit i = true ↔
      (i = 0 ∨ (dcfg6.testBit i = true ∧ i < 16 ∧ cfgMask.testBit i = true)) := by
  simp only [activeQueueMask, if_pos hm]
  simp only [Nat.testBit_or, Nat.testBit_and, testBit_one_iff, testBit_ffff,
    Bool.or_eq_true, Bool.and_eq_true, decide_eq_true_eq]
  tauto

theorem foldl_updf_cond (p : Nat → Prop) [DecidablePred p] (key : Nat → Nat) (v : Nat) :
    ∀ (l : List Nat) (f : Nat → Nat) (j : Nat),
    (l.foldl (fun f i => if p i then updf f (key i) v else f) f) j =
      if ∃ i ∈ l, p i ∧ j = key i then v else f j
  | [], f, j => by simp
  | a :: l, f, j => by
    rw [List.foldl_cons, foldl_updf_cond p key v l _ j]
    by_cases hpa : p a
    · rw [if_pos hpa]
      by_cases hja : j = key a
      · by_cases hjl : ∃ i ∈ l, p i ∧ j = key i
        · rw [if_pos hjl, if_pos ⟨a, List.mem_cons_self a l, hpa, hja⟩]
        · rw [if_neg hjl, if_pos ⟨a, List.mem_cons_self a l, hpa, hja⟩]
          subst hja
          simp [updf]
      · have hbase : updf f (key a) v j = f j := by simp [updf, hja]
        rw [hbase]
        have hiff : (∃ i ∈ a :: l, p i ∧ j = key i) ↔ (∃ i ∈ l, p i ∧ j = key i) := by
          constructor
          · rintro ⟨i, hi, hpi, hji⟩
            rcases List.mem_cons.mp hi with rfl | hi'
            · exact absurd hji hja
            · exact ⟨i, hi', hpi, hji⟩
          · rintro ⟨i, hi, hpi, hji⟩
            exact ⟨i, List.mem_cons_of_mem a hi, hpi, hji⟩
        rw [if_congr hiff rfl rfl]
    · rw [if_neg hpa]
      have hiff : (∃ i ∈ a :: l, p i ∧ j = key i) ↔ (∃ i ∈ l, p i ∧ j = key i) := by
        constructor
        · rintro ⟨i, hi, hpi, hji⟩
          rcases List.mem_cons.mp hi with rfl | hi'
          · exact absurd hpi hpa
          · exact ⟨i, hi', hpi, hji⟩
        · rintro ⟨i, hi, hpi, hji⟩
          exact ⟨i, List.mem_cons_of_mem a hi, hpi, hji⟩
      rw [if_congr hiff rfl rfl]

theorem gmacDisable_foldl_tbqp : ∀ (l : List Nat) (g : GemRegs),
    (l.foldl gmacDisableStep g).tbqp =
      l.foldl (fun f i => if True then updf f (i - 1) 1 else f) g.tbqp
  | [], g => rfl
  | a :: l, g => by
    rw [List.foldl_cons, List.foldl_cons, gmacDisable_foldl_tbqp l _]
    rfl

theorem gmacDisable_foldl_rbqp : ∀ (l : List Nat) (g : GemRegs),
    (l.foldl gmacDisableStep g).rbqp =
      l.foldl (fun f i => if True then updf f (i - 1) 1 else f) g.rbqp
  | [], g => rfl
  | a :: l, g => by
    rw [List.foldl_cons, List.foldl_cons, gmacDisable_foldl_rbqp l _]
    rfl

theorem gmacQueue_foldl_tbqp (cfg : QueueConfig) (qm dp spq : Nat) :
    ∀ (l : List Nat) (acc : GemRegs × Nat × Nat),
    ((l.foldl (gmacQueueStep cfg qm dp spq) acc).1).tbqp =
      l.foldl (fun f i => if qm.testBit i = true then updf f (i - 1) (lower_32_bits dp)
        else f) acc.1.tbqp
  | [], acc => rfl
  | a :: l, acc => by
    rw [List.foldl_cons, List.foldl_cons, gmacQueue_foldl_tbqp cfg qm dp spq l _]
    congr 1
    by_cases h : qm.testBit a = true
    · cases hc : cfg.hw_dma_cap_64 <;>
        by_cases h8 : a < MACB_LOWER_SEGMENTS_NUM <;>
          simp [gmacQueueStep, h, hc, h8]
    · simp [gmacQueueStep, h]

theorem gmacQueue_foldl_rbqp (cfg : QueueConfig) (qm dp spq : Nat) :
    ∀ (l : List Nat) (acc : GemRegs × Nat × Nat),
    ((l.foldl (gmacQueueStep cfg qm dp spq) acc).1).rbqp =
      l.foldl (fun f i => if qm.testBit i = true then updf f (i - 1) (lower_32_bits dp)
        else f) acc.1.rbqp
  | [], acc => rfl
  | a :: l, acc => by
    rw [List.foldl_cons, List.foldl_cons, gmacQueue_foldl_rbqp cfg qm dp spq l _]
    congr 1
    by_cases h : qm.testBit a = true
    · cases hc : cfg.hw_dma_cap_64 <;>
        by_cases h8 : a < MACB_LOWER_SEGMENTS_NUM <;>
          simp [gmacQueueStep, h, hc, h8]
    · simp [gmacQueueStep, h]

theorem gmacQueue_foldl_lower (cfg : QueueConfig) (qm dp spq : Nat) :
    ∀ (l : List Nat) (acc : GemRegs × Nat × Nat),
    (l.foldl (gmacQueueStep cfg qm dp spq) acc).2.1 =
      l.foldl (fun w i => if qm.testBit i = true ∧ i < MACB_LOWER_SEGMENTS_NUM then
        w ||| (spq <<< (i * 4)) else w) acc.2.1
  | [], acc => rfl
  | a :: l, acc => by
    rw [List.foldl_cons, List.foldl_cons, gmacQueue_foldl_lower cfg qm dp spq l _]
    congr 1
    by_cases h : qm.testBit a = true
    · cases hc : cfg.hw_dma_cap_64 <;>
        by_cases h8 : a < MACB_LOWER_SEGMENTS_NUM <;>
          simp [gmacQueueStep, h, hc, h8]
    · simp [gmacQueueStep, h]

theorem gmacQueue_foldl_upper (cfg : QueueConfig) (qm dp spq : Nat) :
    ∀ (l : List Nat) (acc : GemRegs × Nat × Nat),
    (l.foldl (gmacQueueStep cfg qm dp spq) acc).2.2 =
      l.foldl (fun w i => if qm.testBit i = true ∧ ¬ i < MACB_LOWER_SEGMENTS_NUM then
        w ||| (spq <<< ((i - MACB_LOWER_SEGMENTS_NUM) * 4)) else w) acc.2.2
  | [], acc => rfl
  | a :: l, acc => by
    rw [List.foldl_cons, List.foldl_cons, gmacQueue_foldl_upper cfg qm dp spq l _]
    congr 1
    by_cases h : qm.testBit a = true
    · cases hc : cfg.hw_dma_cap_64 <;>
        by_cases h8 : a < MACB_LOWER_SEGMENTS_NUM <;>
          simp [gmacQueueStep, h, hc, h8]
    · simp [gmacQueueStep, h]

theorem nib_zero (j : Nat) : nib j 0 = 0 := by
  simp [nib]

theorem nib_or (j x y : Nat) : nib j (x ||| y) = nib j x ||| nib j y := by
  refine Nat.eq_of_testBit_eq fun t => ?_
  simp only [nib, Nat.testBit_and, Nat.testBit_shiftRight, Nat.testBit_or]
  cases x.testBit (j * 4 + t) <;> cases y.testBit (j * 4 + t) <;> simp

theorem nib_shift : ∀ v < 16, ∀ a < 8, ∀ j < 8,
    nib j (v <<< (a * 4)) = if j = a then v else 0 := by decide

theorem foldl_orShift_nib (p : Nat → Prop) [DecidablePred p] (key : Nat → Nat) (v : Nat)
    (hv : v < 16) :
    ∀ (l : List Nat) (w j : Nat), j < 8 → (∀ i ∈ l, p i → key i < 8) →
    nib j (l.foldl (fun w i => if p i then w ||| (v <<< (key i * 4)) else w) w) =
      nib j w ||| (if ∃ i ∈ l, p i ∧ key i = j then v else 0)
  | [], w, j, hj, hk => by simp
  | a :: l, w, j, hj, hk => by
    rw [List.foldl_cons]
    by_cases hpa : p a
    · rw [if_pos hpa,
        foldl_orShift_nib p key v hv l _ j hj (fun i hi => hk i (List.mem_cons_of_mem a hi)),
        nib_or, nib_shift v hv (key a) (hk a (List.mem_cons_self a l) hpa) j hj]
      by_cases hja : j = key a
      · rw [if_pos hja]
        by_cases hjl : ∃ i ∈ l, p i ∧ key i = j
        · rw [if_pos hjl, if_pos ⟨a, List.mem_cons_self a l, hpa, hja.symm⟩,
            Nat.or_assoc, Nat.or_self]
        · rw [if_neg hjl, if_pos ⟨a, List.mem_cons_self a l, hpa, hja.symm⟩,
            Nat.or_zero]
      · rw [if_neg hja, Nat.or_zero]
        have hiff : (∃ i ∈ a :: l, p i ∧ key i = j) ↔ (∃ i ∈ l, p i ∧ key i = j) := by
          constructor
          · rintro ⟨i, hi, hpi, hji⟩
            rcases List.mem_cons.mp hi with rfl | hi'
            · exact absurd hji.symm hja
            · exact ⟨i, hi', hpi, hji⟩
          · rintro ⟨i, hi, hpi, hji⟩
            exact ⟨i, List.mem_cons_of_mem a hi, hpi, hji⟩
        rw [if_congr hiff rfl rfl]
    · rw [if_neg hpa,
        foldl_orShift_nib p key v hv l _ j hj (fun i hi => hk i (List.mem_cons_of_mem a hi))]
      have hiff : (∃ i ∈ a :: l, p i ∧ key i = j) ↔ (∃ i ∈ l, p i ∧ key i = j) := by
        constructor
        · rintro ⟨i, hi, hpi, hji⟩
          rcases List.mem_cons.mp hi with rfl | hi'
          · exact absurd hpi hpa
          · exact ⟨i, hi', hpi, hji⟩
        · rintro ⟨i, hi, hpi, hji⟩
          exact ⟨i, List.mem_cons_of_mem a hi, hpi, hji⟩
      rw [if_congr hiff rfl rfl]

theorem numActiveQueues_pos (qm : Nat) : 1 ≤ numActiveQueues qm := by
  simp only [numActiveQueues]
  omega

theorem numActiveQueues_le (qm : Nat) : numActiveQueues qm ≤ MACB_MAX_QUEUES := by
  have h : (whileLTAux (MACB_MAX_QUEUES - 1) 1).countP (fun i => qm.testBit i) ≤
      (whileLTAux (MACB_MAX_QUEUES - 1) 1).length :=
    List.countP_le_length _
  have hlen : (whileLTAux (MACB_MAX_QUEUES - 1) 1).length = MACB_MAX_QUEUES - 1 := by
    decide
  have hM : MACB_MAX_QUEUES = 16 := rfl
  simp only [numActiveQueues]
  omega

theorem ilog2Aux_eq_log2 : ∀ (fuel n : Nat), n ≤ fuel → ilog2Aux fuel n = Nat.log2 n
  | 0, n, h => by
    have hn : n = 0 := by omega
    subst hn
    rw [Nat.log2]
    simp [ilog2Aux]
  | fuel + 1, n, h => by
    rw [ilog2Aux]
    by_cases h2 : 2 ≤ n
    · have hdiv : n / 2 < n := Nat.div_lt_self (by omega) (by omega)
      rw [if_pos h2, ilog2Aux_eq_log2 fuel (n / 2) (by omega)]
      conv_rhs => rw [Nat.log2]
      rw [if_pos h2]
    · rw [if_neg h2]
      conv_rhs => rw [Nat.log2]
      rw [if_neg h2]

/-- The executable `ilog2` of the model is the floor base-2 logarithm. -/
theorem ilog2_eq_log2 (n : Nat) : ilog2 n = Nat.log2 n :=
  ilog2Aux_eq_log2 n n (Nat.le_refl n)

/-- C5 counterexample: the capability register reports queues {1,3} and
the configuration allow-mask is 0b11111, so the active set is {0,1,3}.
Queue 2 lies outside the active set, yet after initialisation its TX and
RX base-address registers hold the disable value 1, not the dummy
descriptor address 0x1000 — inactive optional queues are not pointed at
the shared dummy descriptor. -/
theorem multi_queue_dummy_counterexample :
    (activeQueueMask 31 10).testBit 2 = false
    ∧ (gmac_init_multi_queues ⟨31, true, true, false⟩ 10 0x1000 16
        ⟨fun _ => 0, fun _ => 0, fun _ => 0, fun _ => 0, 0, 0⟩).1.tbqp 1 = 1
    ∧ (gmac_init_multi_queues ⟨31, true, true, false⟩ 10 0x1000 16
        ⟨fun _ => 0, fun _ => 0, fun _ => 0, fun _ => 0, 0, 0⟩).1.rbqp 1 = 1
    ∧ lower_32_bits 0x1000 ≠ 1 := by decide

/-- C5 (amended): at multi-queue initialisation the active queue set is
the intersection of the DCFG6 capability bitmask with the configuration
allow-mask (intersection applied when the allow-mask is non-zero), with
queue 0 always included; the shared dummy descriptor is permanently
marked owned by software (TX_USED set, address 0); and, with queue
disabling at init enabled, every optional queue's TX and RX base-address
registers are first written with the disable value 1, after which the
dummy-descriptor address is written to exactly the ACTIVE optional queues
with index below the active-queue count — inactive queues, and active
queues at or above that count when the mask is sparse, retain the disable
value 1. -/
theorem multi_queue_active_set_and_regs (cfg : QueueConfig)
    (dcfg6 dummy_paddr segTotal : Nat) (regs0 : GemRegs)
    (hm : cfg.queue_mask ≠ 0) (hdis : cfg.disable_queues_at_init = true) :
    (∀ i : Nat, (activeQueueMask cfg.queue_mask dcfg6).testBit i = true ↔
        (i = 0 ∨ (dcfg6.testBit i = true ∧ i < MACB_MAX_QUEUES ∧
          cfg.queue_mask.testBit i = true)))
    ∧ (gmac_init_multi_queues cfg dcfg6 dummy_paddr segTotal regs0).2 =
        ⟨0, MACB_BIT MACB_TX_USED_OFFSET⟩
    ∧ (∀ i : Nat, 1 ≤ i → i < MACB_MAX_QUEUES →
        ((gmac_init_multi_queues cfg dcfg6 dummy_paddr segTotal regs0).1.tbqp (i - 1) =
          if (activeQueueMask cfg.queue_mask dcfg6).testBit i = true ∧
              i < numActiveQueues (activeQueueMask cfg.queue_mask dcfg6) then
            lower_32_bits dummy_paddr else 1)
        ∧ ((gmac_init_multi_queues cfg dcfg6 dummy_paddr segTotal regs0).1.rbqp (i - 1) =
          if (activeQueueMask cfg.queue_mask dcfg6).testBit i = true ∧
              i < numActiveQueues (activeQueueMask cfg.queue_mask dcfg6) then
            lower_32_bits dummy_paddr else 1)) := by
  have hM : MACB_MAX_QUEUES = 16 := rfl
  have hnq1 := numActiveQueues_pos (activeQueueMask cfg.queue_mask dcfg6)
  refine ⟨fun i => activeQueueMask_testBit cfg.queue_mask dcfg6 hm i, rfl, ?_⟩
  intro i h1 h16
  have hiff : (∃ i' ∈ whileLTAux
        (numActiveQueues (activeQueueMask cfg.queue_mask dcfg6) - 1) 1,
        (activeQueueMask cfg.queue_mask dcfg6).testBit i' = true ∧ i - 1 = i' - 1) ↔
      ((activeQueueMask cfg.queue_mask dcfg6).testBit i = true ∧
        i < numActiveQueues (activeQueueMask cfg.queue_mask dcfg6)) := by
    constructor
    · rintro ⟨i', hi', ht, heq⟩
      have hmem := (whileLTAux_mem _ _ _).mp hi'
      have : i' = i := by omega
      subst this
      exact ⟨ht, by omega⟩
    · rintro ⟨ht, hlt⟩
      exact ⟨i, (whileLTAux_mem _ _ _).mpr ⟨h1, by omega⟩, ht, rfl⟩
  have hdisable : ∀ g0 : GemRegs,
      (((whileLTAux (MACB_MAX_QUEUES - 1) 1).foldl gmacDisableStep g0).tbqp (i - 1) = 1)
      ∧ (((whileLTAux (MACB_MAX_QUEUES - 1) 1).foldl gmacDisableStep g0).rbqp (i - 1) = 1) := by
    intro g0
    constructor
    · rw [gmacDisable_foldl_tbqp, foldl_updf_cond (fun _ => True) (fun i => i - 1) 1,
        if_pos ⟨i, (whileLTAux_mem _ _ _).mpr ⟨h1, by omega⟩, trivial, rfl⟩]
    · rw [gmacDisable_foldl_rbqp, foldl_updf_cond (fun _ => True) (fun i => i - 1) 1,
        if_pos ⟨i, (whileLTAux_mem _ _ _).mpr ⟨h1, by omega⟩, trivial, rfl⟩]
  constructor
  · have step1 : (gmac_init_multi_queues cfg dcfg6 dummy_paddr segTotal regs0).1.tbqp =
        (((whileLTAux (numActiveQueues (activeQueueMask cfg.queue_mask dcfg6) - 1) 1).foldl
          (gmacQueueStep cfg (activeQueueMask cfg.queue_mask dcfg6) dummy_paddr
            (ilog2 (segTotal / numActiveQueues (activeQueueMask cfg.queue_mask dcfg6))))
          ((whileLTAux (MACB_MAX_QUEUES - 1) 1).foldl gmacDisableStep regs0, 0, 0)).1).tbqp := by
      cases halloc : cfg.allocate_segments_equally <;>
        simp [gmac_init_multi_queues, hdis, halloc]
    rw [step1, gmacQueue_foldl_tbqp,
      foldl_updf_cond (fun i => (activeQueueMask cfg.queue_mask dcfg6).testBit i = true)
        (fun i => i - 1) (lower_32_bits dummy_paddr),
      if_congr hiff rfl rfl, (hdisable regs0).1]
  · have step1 : (gmac_init_multi_queues cfg dcfg6 dummy_paddr segTotal regs0).1.rbqp =
        (((whileLTAux (numActiveQueues (activeQueueMask cfg.queue_mask dcfg6) - 1) 1).foldl
          (gmacQueueStep cfg (activeQueueMask cfg.queue_mask dcfg6) dummy_paddr
            (ilog2 (segTotal / numActiveQueues (activeQueueMask cfg.queue_mask dcfg6))))
          ((whileLTAux (MACB_MAX_QUEUES - 1) 1).foldl gmacDisableStep regs0, 0, 0)).1).rbqp := by
      cases halloc : cfg.allocate_segments_equally <;>
        simp [gmac_init_multi_queues, hdis, halloc]
    rw [step1, gmacQueue_foldl_rbqp,
      foldl_updf_cond (fun i => (activeQueueMask cfg.queue_mask dcfg6).testBit i = true)
        (fun i => i - 1) (lower_32_bits dummy_paddr),
      if_congr hiff rfl rfl, (hdisable regs0).2]

/-- C5 witness: with capability {1,3}, allow-mask 0b11111 and queue
disabling enabled, active queue 1 has its TX base register pointed at the
dummy descriptor address. -/
theorem multi_queue_active_set_and_regs_witness :
    ((31 : Nat) ≠ 0)
    ∧ (gmac_init_multi_queues ⟨31, true, true, false⟩ 10 0x1000 16
        ⟨fun _ => 0, fun _ => 0, fun _ => 0, fun _ => 0, 0, 0⟩).1.tbqp 0 =
      lower_32_bits 0x1000 := by
  refine ⟨by decide, ?_⟩
  have h := ((multi_queue_active_set_and_regs ⟨31, true, true, false⟩ 10 0x1000 16
    ⟨fun _ => 0, fun _ => 0, fun _ => 0, fun _ => 0, 0, 0⟩ (by decide) rfl).2.2 1
    (by decide) (by decide)).1
  rw [if_pos (by decide)] at h
  exact h

/-- C6 counterexample: with capability {1}, allow-mask 3 and 16 total
segments, the active set is {0,1}, so the claimed per-queue nibble is
floor(log2(16/2)) = 3; but queue 0, although active, has its nibble in the
lower allocation register left at 0 — the loop programs nibbles only for
queue indices starting at 1. -/
theorem segment_nibble_queue0_counterexample :
    (activeQueueMask 3 2).testBit 0 = true
    ∧ ilog2 (16 / numActiveQueues (activeQueueMask 3 2)) = 3
    ∧ nib 0 ((gmac_init_multi_queues ⟨3, true, true, false⟩ 2 0x1000 16
        ⟨fun _ => 0, fun _ => 0, fun _ => 0, fun _ => 0, 0, 0⟩).1.seg_alloc_lower) = 0
    ∧ (0 : Nat) ≠ 3 := by decide

/-- C6 (amended): with equal-segment allocation enabled and the nibble
value in range, the segment count programmed for each ACTIVE queue with
index `1 ≤ i < num_queues` is the nibble `floor(log2(total_segments /
num_queues))` (the model's `ilog2`, shown equal to `Nat.log2`), written at nibble position `i` of the lower allocation
register for `i < MACB_LOWER_SEGMENTS_NUM` and at position
`i - MACB_LOWER_SEGMENTS_NUM` of the upper register otherwise; queue 0's
nibble is left at zero, and active queues with index at or above
`num_queues` (reachable only under a sparse mask) are not programmed. -/
theorem segment_nibble_allocation (cfg : QueueConfig)
    (dcfg6 dummy_paddr segTotal : Nat) (regs0 : GemRegs)
    (halloc : cfg.allocate_segments_equally = true)
    (hspq : ilog2 (segTotal /
      numActiveQueues (activeQueueMask cfg.queue_mask dcfg6)) < 16) :
    (ilog2 (segTotal / numActiveQueues (activeQueueMask cfg.queue_mask dcfg6)) =
      Nat.log2 (segTotal / numActiveQueues (activeQueueMask cfg.queue_mask dcfg6)))
    ∧ (∀ i : Nat, i < MACB_LOWER_SEGMENTS_NUM →
      nib i ((gmac_init_multi_queues cfg dcfg6 dummy_paddr segTotal
          regs0).1.seg_alloc_lower) =
        if 1 ≤ i ∧ i < numActiveQueues (activeQueueMask cfg.queue_mask dcfg6) ∧
            (activeQueueMask cfg.queue_mask dcfg6).testBit i = true then
          ilog2 (segTotal / numActiveQueues (activeQueueMask cfg.queue_mask dcfg6))
        else 0)
    ∧ (∀ i : Nat, MACB_LOWER_SEGMENTS_NUM ≤ i → i < MACB_MAX_QUEUES →
      nib (i - MACB_LOWER_SEGMENTS_NUM)
          ((gmac_init_multi_queues cfg dcfg6 dummy_paddr segTotal
            regs0).1.seg_alloc_upper) =
        if i < numActiveQueues (activeQueueMask cfg.queue_mask dcfg6) ∧
            (activeQueueMask cfg.queue_mask dcfg6).testBit i = true then
          ilog2 (segTotal / numActiveQueues (activeQueueMask cfg.queue_mask dcfg6))
        else 0) := by
  have hM : MACB_MAX_QUEUES = 16 := rfl
  have hL : MACB_LOWER_SEGMENTS_NUM = 8 := rfl
  have hnq1 := numActiveQueues_pos (activeQueueMask cfg.queue_mask dcfg6)
  have hnq16 := numActiveQueues_le (activeQueueMask cfg.queue_mask dcfg6)
  refine ⟨ilog2_eq_log2 _, ?_, ?_⟩
  · intro i hi8
    have step1 : (gmac_init_multi_queues cfg dcfg6 dummy_paddr segTotal
        regs0).1.seg_alloc_lower =
        ((whileLTAux (numActiveQueues (activeQueueMask cfg.queue_mask dcfg6) - 1) 1).foldl
          (gmacQueueStep cfg (activeQueueMask cfg.queue_mask dcfg6) dummy_paddr
            (ilog2 (segTotal / numActiveQueues (activeQueueMask cfg.queue_mask dcfg6))))
          ((if cfg.disable_queues_at_init = true then
              (whileLTAux (MACB_MAX_QUEUES - 1) 1).foldl gmacDisableStep regs0
            else regs0), 0, 0)).2.1 := by
      simp [gmac_init_multi_queues, halloc]
    rw [step1, gmacQueue_foldl_lower,
      foldl_orShift_nib
        (fun i' => (activeQueueMask cfg.queue_mask dcfg6).testBit i' = true ∧
          i' < MACB_LOWER_SEGMENTS_NUM)
        (fun i' => i') _ hspq _ _ i hi8 (fun _ _ hp => hp.2),
      nib_zero, Nat.zero_or]
    have hiff : (∃ i' ∈ whileLTAux
          (numActiveQueues (activeQueueMask cfg.queue_mask dcfg6) - 1) 1,
          ((activeQueueMask cfg.queue_mask dcfg6).testBit i' = true ∧
            i' < MACB_LOWER_SEGMENTS_NUM) ∧ i' = i) ↔
        (1 ≤ i ∧ i < numActiveQueues (activeQueueMask cfg.queue_mask dcfg6) ∧
          (activeQueueMask cfg.queue_mask dcfg6).testBit i = true) := by
      constructor
      · rintro ⟨i', hi', ⟨ht, -⟩, rfl⟩
        have hmem := (whileLTAux_mem _ _ _).mp hi'
        exact ⟨by omega, by omega, ht⟩
      · rintro ⟨h1, hlt, ht⟩
        exact ⟨i, (whileLTAux_mem _ _ _).mpr ⟨h1, by omega⟩, ⟨ht, hi8⟩, rfl⟩
    rw [if_congr hiff rfl rfl]
  · intro i hi8 hi16
    have step1 : (gmac_init_multi_queues cfg dcfg6 dummy_paddr segTotal
        regs0).1.seg_alloc_upper =
        ((whileLTAux (numActiveQueues (activeQueueMask cfg.queue_mask dcfg6) - 1) 1).foldl
          (gmacQueueStep cfg (activeQueueMask cfg.queue_mask dcfg6) dummy_paddr
            (ilog2 (segTotal / numActiveQueues (activeQueueMask cfg.queue_mask dcfg6))))
          ((if cfg.disable_queues_at_init = true then
              (whileLTAux (MACB_MAX_QUEUES - 1) 1).foldl gmacDisableStep regs0
            else regs0), 0, 0)).2.2 := by
      simp [gmac_init_multi_queues, halloc]
    have hkey : ∀ i' ∈ whileLTAux
        (numActiveQueues (activeQueueMask cfg.queue_mask dcfg6) - 1) 1,
        ((activeQueueMask cfg.queue_mask dcfg6).testBit i' = true ∧
          ¬ i' < MACB_LOWER_SEGMENTS_NUM) → i' - MACB_LOWER_SEGMENTS_NUM < 8 := by
      intro i' hi' hp
      have hmem := (whileLTAux_mem _ _ _).mp hi'
      omega
    rw [step1, gmacQueue_foldl_upper,
      foldl_orShift_nib
        (fun i' => (activeQueueMask cfg.queue_mask dcfg6).testBit i' = true ∧
          ¬ i' < MACB_LOWER_SEGMENTS_NUM)
        (fun i' => i' - MACB_LOWER_SEGMENTS_NUM) _ hspq _ _
        (i - MACB_LOWER_SEGMENTS_NUM) (by omega) hkey,
      nib_zero, Nat.zero_or]
    have hiff : (∃ i' ∈ whileLTAux
          (numActiveQueues (activeQueueMask cfg.queue_mask dcfg6) - 1) 1,
          ((activeQueueMask cfg.queue_mask dcfg6).testBit i' = true ∧
            ¬ i' < MACB_LOWER_SEGMENTS_NUM) ∧
            i' - MACB_LOWER_SEGMENTS_NUM = i - MACB_LOWER_SEGMENTS_NUM) ↔
        (i < numActiveQueues (activeQueueMask cfg.queue_mask dcfg6) ∧
          (activeQueueMask cfg.queue_mask dcfg6).testBit i = true) := by
      constructor
      · rintro ⟨i', hi', ⟨ht, h8'⟩, heq⟩
        have hmem := (whileLTAux_mem _ _ _).mp hi'
        have : i' = i := by omega
        subst this
        exact ⟨by omega, ht⟩
      · rintro ⟨hlt, ht⟩
        exact ⟨i, (whileLTAux_mem _ _ _).mpr ⟨by omega, by omega⟩,
          ⟨ht, by omega⟩, rfl⟩
    rw [if_congr hiff rfl rfl]

/-- C6 witness: capability {1}, allow-mask 3, 16 segments: the active set
is {0,1}, the nibble is log2(16/2) = 3, and queue 1's nibble in the lower
allocation register holds it. -/
theorem segment_nibble_allocation_witness :
    ilog2 (16 / numActiveQueues (activeQueueMask 3 2)) < 16
    ∧ nib 1 ((gmac_init_multi_queues ⟨3, true, true, false⟩ 2 0x1000 16
        ⟨fun _ => 0, fun _ => 0, fun _ => 0, fun _ => 0, 0, 0⟩).1.seg_alloc_lower) =
      ilog2 (16 / numActiveQueues (activeQueueMask 3 2)) := by
  refine ⟨by decide, ?_⟩
  have h := (segment_nibble_allocation ⟨3, true, true, false⟩ 2 0x1000 16
    ⟨fun _ => 0, fun _ => 0, fun _ => 0, fun _ => 0, 0, 0⟩ rfl (by decide)).2.1 1 (by decide)
  rw [if_pos (by decide)] at h
  exact h

end Macb
